import Mathlib

/-!
Shallow embedding of the `SecureResume` Solidity contract
(privacy-preserving resume storage on FHEVM).

Ciphertexts (`euint32` handles) are modelled symbolically: the contract never
inspects a ciphertext, it only builds new ones with `FHE.fromExternal`,
`FHE.asEuint32` and `FHE.add`, so a ciphertext is a syntax tree over those
constructors.  The FHE library also offers comparison operations on
ciphertexts; the constructor `Ct.cmp` stands for any of them, so that "the
contract applies an FHE comparison" is expressible (and refutable).
`FHE.allowThis` / `FHE.allow` are modelled as an access-control list of
(ciphertext, principal) grants carried in the contract state.

Addresses are `Nat` (0 is the zero address), `block.timestamp` is an
explicit `Nat` argument, and a Solidity `revert` is `Except.error` carrying
the require message; `execOp` gives revert-leaves-state-unchanged semantics.
-/

namespace SecureResume

/-- A principal that can be granted FHE decryption permission:
the contract itself (`FHE.allowThis`) or an externally owned account
(`FHE.allow`). -/
inductive Principal where
  | contract : Principal
  | user (addr : Nat) : Principal
deriving DecidableEq

/-- Symbolic `euint32` ciphertext handles.  `ext` is `FHE.fromExternal`
(external handle plus input proof), `const` is the trivial encryption
`FHE.asEuint32`, `add` is homomorphic addition `FHE.add`, `cmp` stands for
the FHE comparison operations the library offers, and `uninit` is the
all-zero handle of an uninitialized `euint32` storage slot. -/
inductive Ct where
  | uninit : Ct
  | ext (handle inputProof : Nat) : Ct
  | const (n : Nat) : Ct
  | add (a b : Ct) : Ct
  | cmp (a b : Ct) : Ct
deriving DecidableEq

/-- Whether a ciphertext was built using an FHE comparison operation. -/
def Ct.usesCmp : Ct → Bool
  | .uninit => false
  | .ext _ _ => false
  | .const _ => false
  | .add a b => a.usesCmp || b.usesCmp
  | .cmp _ _ => true

/-- The `Resume` struct: three plaintext strings, five fixed encrypted
skill-level slots, five fixed plaintext skill-name slots, the number of
slots in use, two timestamps and the existence flag. -/
structure Resume where
  name : String
  education : String
  workExperience : String
  skillLevel1 : Ct
  skillLevel2 : Ct
  skillLevel3 : Ct
  skillLevel4 : Ct
  skillLevel5 : Ct
  skillName1 : String
  skillName2 : String
  skillName3 : String
  skillName4 : String
  skillName5 : String
  skillCount : Nat
  createdAt : Nat
  updatedAt : Nat
  exists_ : Bool
deriving DecidableEq

/-- The Solidity zero value of `Resume` (what `_resumes[a]` holds before any
submission). -/
def emptyResume : Resume :=
  { name := "", education := "", workExperience := ""
    skillLevel1 := .uninit, skillLevel2 := .uninit, skillLevel3 := .uninit
    skillLevel4 := .uninit, skillLevel5 := .uninit
    skillName1 := "", skillName2 := "", skillName3 := "", skillName4 := ""
    skillName5 := ""
    skillCount := 0, createdAt := 0, updatedAt := 0, exists_ := false }

/-- Contract storage: the `_resumes` mapping, the public `hrAddresses`
mapping, the `_totalResumes` counter, and the FHE access-control list
accumulated by `FHE.allowThis` / `FHE.allow` calls (in call order). -/
structure CState where
  resumes : Nat → Resume
  hrAddresses : Nat → Bool
  totalResumes : Nat
  acl : List (Ct × Principal)

/-- The state right after deployment. -/
def initState : CState :=
  { resumes := fun _ => emptyResume
    hrAddresses := fun _ => false
    totalResumes := 0
    acl := [] }

/-- One `FHE.allowThis`/`FHE.allow` call: record the grant. -/
def grant (s : CState) (c : Ct) (p : Principal) : CState :=
  { s with acl := s.acl ++ [(c, p)] }

/-- The `if (i == 0) ... else if (i == 4)` chain that writes skill slot `i`
(level and name); indices past the five slots write nothing. -/
def setSlot (r : Resume) (i : Nat) (ct : Ct) (nm : String) : Resume :=
  if i = 0 then { r with skillLevel1 := ct, skillName1 := nm }
  else if i = 1 then { r with skillLevel2 := ct, skillName2 := nm }
  else if i = 2 then { r with skillLevel3 := ct, skillName3 := nm }
  else if i = 3 then { r with skillLevel4 := ct, skillName4 := nm }
  else if i = 4 then { r with skillLevel5 := ct, skillName5 := nm }
  else r

/-- Read encrypted skill slot `i` (the same `skillIndex == 0 ... 4` chain the
contract uses). -/
def slotLevel (r : Resume) (i : Nat) : Ct :=
  if i = 0 then r.skillLevel1
  else if i = 1 then r.skillLevel2
  else if i = 2 then r.skillLevel3
  else if i = 3 then r.skillLevel4
  else if i = 4 then r.skillLevel5
  else .uninit

/-- Read plaintext skill-name slot `i`. -/
def slotName (r : Resume) (i : Nat) : String :=
  if i = 0 then r.skillName1
  else if i = 1 then r.skillName2
  else if i = 2 then r.skillName3
  else if i = 3 then r.skillName4
  else if i = 4 then r.skillName5
  else ""

/-- One iteration of the skill-storing loop: write the imported ciphertext
into the sender's fixed slot `i` and grant decryption permission on it to
the contract (`FHE.allowThis`) and to the sender (`FHE.allow`).  Indices
past the fifth slot (unreachable: input length is at most 5) store and
grant nothing, matching the if-chain falling through. -/
def storeStep (sender i : Nat) (ct : Ct) (nm : String) (s : CState) :
    CState :=
  if i < 5 then
    let r := setSlot (s.resumes sender) i ct nm
    let s' := { s with resumes := Function.update s.resumes sender r }
    grant (grant s' ct .contract) ct (.user sender)
  else s

/-- The skill-storing loop shared by `submitResume` and `updateResume`:
for each (name, external handle) pair, import the ciphertext with
`FHE.fromExternal` and run one `storeStep`. -/
def storeSkillsFrom (sender inputProof : Nat) :
    Nat → List (String × Nat) → CState → CState
  | _, [], s => s
  | i, (nm, h) :: rest, s =>
    storeSkillsFrom sender inputProof (i + 1) rest
      (storeStep sender i (Ct.ext h inputProof) nm s)

/-- The field assignments of `submitResume` before its storing loop:
overwrite the plaintext fields and both timestamps, set `exists`, and bump
`_totalResumes`. -/
def submitState (s : CState) (sender timestamp : Nat)
    (name education workExperience : String) (cnt : Nat) : CState :=
  { s with
    resumes := Function.update s.resumes sender
      { s.resumes sender with
        name := name, education := education
        workExperience := workExperience
        skillCount := cnt
        createdAt := timestamp, updatedAt := timestamp, exists_ := true }
    totalResumes := s.totalResumes + 1 }

/-- `submitResume`: validate the three `require`s, overwrite the sender's
record (including `createdAt`), bump `_totalResumes`, then store the skills
in the fixed slots with decryption grants.  External proof verification
(`FHE.fromExternal`) is assumed to accept. -/
def submitResume (s : CState) (sender timestamp : Nat)
    (name education workExperience : String)
    (skillNames : List String) (skillLevelsExt : List Nat)
    (inputProof : Nat) : Except String CState :=
  if skillNames.length = skillLevelsExt.length then
    if 0 < skillNames.length ∧ skillNames.length ≤ 5 then
      if name = "" then .error "Name cannot be empty"
      else
        .ok (storeSkillsFrom sender inputProof 0
              (skillNames.zip skillLevelsExt)
              (submitState s sender timestamp name education workExperience
                skillNames.length))
    else .error "Must have 1-5 skills"
  else .error "Skill arrays length mismatch"

/-- The field assignments of `updateResume` before its storing loop:
overwrite the plaintext fields and `updatedAt` (keeping `createdAt`,
`exists` and the counter), and clear all five slots (names to `""`, levels
to a fresh encryption of 0). -/
def updateState (s : CState) (sender timestamp : Nat)
    (name education workExperience : String) (cnt : Nat) : CState :=
  { s with
    resumes := Function.update s.resumes sender
      { s.resumes sender with
        name := name, education := education
        workExperience := workExperience
        skillCount := cnt
        updatedAt := timestamp
        skillName1 := "", skillName2 := "", skillName3 := ""
        skillName4 := "", skillName5 := ""
        skillLevel1 := Ct.const 0, skillLevel2 := Ct.const 0
        skillLevel3 := Ct.const 0, skillLevel4 := Ct.const 0
        skillLevel5 := Ct.const 0 } }

/-- `updateResume`: like `submitResume` but requires an existing record
first, keeps `createdAt` and the counter, and clears all five slots (names
to `""`, levels to a fresh encryption of 0) before storing the new skills. -/
def updateResume (s : CState) (sender timestamp : Nat)
    (name education workExperience : String)
    (skillNames : List String) (skillLevelsExt : List Nat)
    (inputProof : Nat) : Except String CState :=
  if (s.resumes sender).exists_ then
    if skillNames.length = skillLevelsExt.length then
      if 0 < skillNames.length ∧ skillNames.length ≤ 5 then
        if name = "" then .error "Name cannot be empty"
        else
          .ok (storeSkillsFrom sender inputProof 0
                (skillNames.zip skillLevelsExt)
                (updateState s sender timestamp name education workExperience
                  skillNames.length))
      else .error "Must have 1-5 skills"
    else .error "Skill arrays length mismatch"
  else .error "Resume does not exist"

/-- The skill-names array `getResumeInfo` builds: allocated with length
`skillCount` and filled slot by slot under the `skillCount >= k` guards. -/
def buildSkillNames (r : Resume) : List String :=
  let a := List.replicate r.skillCount ""
  let a := if 1 ≤ r.skillCount then a.set 0 r.skillName1 else a
  let a := if 2 ≤ r.skillCount then a.set 1 r.skillName2 else a
  let a := if 3 ≤ r.skillCount then a.set 2 r.skillName3 else a
  let a := if 4 ≤ r.skillCount then a.set 3 r.skillName4 else a
  if 5 ≤ r.skillCount then a.set 4 r.skillName5 else a

/-- The encrypted-levels array `getSkillLevels` builds, in the same way. -/
def buildSkillLevels (r : Resume) : List Ct :=
  let a := List.replicate r.skillCount Ct.uninit
  let a := if 1 ≤ r.skillCount then a.set 0 r.skillLevel1 else a
  let a := if 2 ≤ r.skillCount then a.set 1 r.skillLevel2 else a
  let a := if 3 ≤ r.skillCount then a.set 2 r.skillLevel3 else a
  let a := if 4 ≤ r.skillCount then a.set 3 r.skillLevel4 else a
  if 5 ≤ r.skillCount then a.set 4 r.skillLevel5 else a

/-- The tuple `getResumeInfo` returns. -/
structure ResumeInfo where
  name : String
  education : String
  workExperience : String
  skillNames : List String
  createdAt : Nat
  updatedAt : Nat
deriving DecidableEq

/-- `getResumeInfo` (view): the plaintext fields of an existing resume. -/
def getResumeInfo (s : CState) (user : Nat) : Except String ResumeInfo :=
  if (s.resumes user).exists_ then
    let r := s.resumes user
    .ok { name := r.name, education := r.education
          workExperience := r.workExperience
          skillNames := buildSkillNames r
          createdAt := r.createdAt, updatedAt := r.updatedAt }
  else .error "Resume does not exist"

/-- `getSkillLevels` (view): the encrypted levels of an existing resume. -/
def getSkillLevels (s : CState) (user : Nat) : Except String (List Ct) :=
  if (s.resumes user).exists_ then .ok (buildSkillLevels (s.resumes user))
  else .error "Resume does not exist"

/-- `evaluateSkillMatch` (gated by `onlyHR`): hand one stored encrypted skill
level to the calling HR, granting it decryption permission. -/
def evaluateSkillMatch (s : CState) (sender candidate skillIndex : Nat) :
    Except String (Ct × CState) :=
  if s.hrAddresses sender then
    if (s.resumes candidate).exists_ then
      if skillIndex < (s.resumes candidate).skillCount then
        let r := s.resumes candidate
        if skillIndex < 5 then
          let lv := slotLevel r skillIndex
          .ok (lv, grant (grant s lv .contract) lv (.user sender))
        else .error "Invalid skill index"
      else .error "Invalid skill index"
    else .error "Resume does not exist"
  else .error "Not authorized HR"

/-- The accumulation loop of `calculateSkillScore`: each index is checked
against `skillCount`, its slot's ciphertext is homomorphically added to the
running total, and (unreachable) indices past the fifth slot are skipped by
`continue`. -/
def scoreLoop (r : Resume) : List Nat → Ct → Except String Ct
  | [], acc => .ok acc
  | i :: rest, acc =>
    if i < r.skillCount then
      if i < 5 then scoreLoop r rest (Ct.add acc (slotLevel r i))
      else scoreLoop r rest acc
    else .error "Invalid skill index"

/-- `calculateSkillScore` (gated by `onlyHR`): fold `FHE.add` over the
selected encrypted levels starting from `FHE.asEuint32(0)`, then grant the
HR decryption permission on the total. -/
def calculateSkillScore (s : CState) (sender candidate : Nat)
    (skillIndices : List Nat) : Except String (Ct × CState) :=
  if s.hrAddresses sender then
    if (s.resumes candidate).exists_ then
      match scoreLoop (s.resumes candidate) skillIndices (Ct.const 0) with
      | .error e => .error e
      | .ok total =>
        .ok (total, grant (grant s total .contract) total (.user sender))
    else .error "Resume does not exist"
  else .error "Not authorized HR"

/-- `hasResume` (view). -/
def hasResume (s : CState) (user : Nat) : Bool :=
  (s.resumes user).exists_

/-- `authorizeHR`: any sender may authorize any nonzero, not yet authorized
address. -/
def authorizeHR (s : CState) (_sender hr : Nat) : Except String CState :=
  if hr = 0 then .error "Invalid HR address"
  else if s.hrAddresses hr then .error "HR already authorized"
  else .ok { s with hrAddresses := Function.update s.hrAddresses hr true }

/-- `revokeHR`: any sender may revoke a currently authorized address. -/
def revokeHR (s : CState) (_sender hr : Nat) : Except String CState :=
  if s.hrAddresses hr then
    .ok { s with hrAddresses := Function.update s.hrAddresses hr false }
  else .error "HR not authorized"

/-- `getStats` (view). -/
def getStats (s : CState) : Nat :=
  s.totalResumes

/-- The contract's state-changing entry points, with their arguments
(`sender` is `msg.sender`, `timestamp` is `block.timestamp`). -/
inductive Op where
  | submit (sender timestamp : Nat) (name education workExperience : String)
      (skillNames : List String) (skillLevelsExt : List Nat) (inputProof : Nat)
  | update (sender timestamp : Nat) (name education workExperience : String)
      (skillNames : List String) (skillLevelsExt : List Nat) (inputProof : Nat)
  | evaluate (sender candidate skillIndex : Nat)
  | calculate (sender candidate : Nat) (skillIndices : List Nat)
  | authorize (sender hr : Nat)
  | revoke (sender hr : Nat)

/-- The state a transaction leaves behind: the new state on success, the
unchanged state on revert. -/
def applyResult (s : CState) : Except String CState → CState
  | .ok s' => s'
  | .error _ => s

/-- Same, for the two entry points that also return a ciphertext. -/
def applyResultCt (s : CState) : Except String (Ct × CState) → CState
  | .ok (_, s') => s'
  | .error _ => s

/-- EVM transaction semantics: a revert rolls the state back. -/
def execOp (s : CState) : Op → CState
  | .submit sender t n e w sn sl p =>
    applyResult s (submitResume s sender t n e w sn sl p)
  | .update sender t n e w sn sl p =>
    applyResult s (updateResume s sender t n e w sn sl p)
  | .evaluate sender cand i =>
    applyResultCt s (evaluateSkillMatch s sender cand i)
  | .calculate sender cand idxs =>
    applyResultCt s (calculateSkillScore s sender cand idxs)
  | .authorize sender hr => applyResult s (authorizeHR s sender hr)
  | .revoke sender hr => applyResult s (revokeHR s sender hr)

/-- Run a list of transactions. -/
def run (s : CState) (ops : List Op) : CState :=
  ops.foldl execOp s

/-- Whether an operation is a `submitResume`/`updateResume` transaction sent
by `u` (the only operations that can write `u`'s resume record). -/
def writesResume (u : Nat) : Op → Bool
  | .submit sender _ _ _ _ _ _ _ => sender = u
  | .update sender _ _ _ _ _ _ _ => sender = u
  | _ => false

/-- 1 when the operation is a `submitResume` transaction that succeeds from
`s`, else 0. -/
def submitInc (s : CState) : Op → Nat
  | .submit sender t n e w sn sl p =>
    match submitResume s sender t n e w sn sl p with
    | .ok _ => 1
    | .error _ => 0
  | _ => 0

/-- How many `submitResume` transactions of the list succeed, replaying the
trace from `s`. -/
def countSuccessfulSubmits : CState → List Op → Nat
  | _, [] => 0
  | s, op :: rest => submitInc s op + countSuccessfulSubmits (execOp s op) rest

/-- No ciphertext granted in the ACL was built with an FHE comparison. -/
def aclCmpFree (s : CState) : Prop :=
  ∀ cp ∈ s.acl, cp.1.usesCmp = false

/-- No ciphertext stored in any resume slot was built with an FHE
comparison. -/
def resumesCmpFree (s : CState) : Prop :=
  ∀ u j, (slotLevel (s.resumes u) j).usesCmp = false

/-- The comparison-freeness invariant of the contract state. -/
def CmpFree (s : CState) : Prop :=
  resumesCmpFree s ∧ aclCmpFree s

/-! Concrete transactions used to exercise the theorems on explicit
inputs: address 1 submits a two-skill resume at time 100, then address 9
authorizes address 3 as HR. -/

def demoSubmit : Op :=
  .submit 1 100 "alice" "bsc" "dev" ["solidity", "lean"] [7, 9] 42

def demoState : CState :=
  run initState [demoSubmit, .authorize 9 3]

def demoUpdate : Op :=
  .update 1 200 "alicia" "msc" "dev2" ["rust"] [5] 43

def demoUpdatedState : CState :=
  execOp demoState demoUpdate

/-- The ciphertext `calculateSkillScore demoState 3 1 [0, 1, 0]` returns. -/
def demoScore : Ct :=
  Ct.add (Ct.add (Ct.add (Ct.const 0) (Ct.ext 7 42)) (Ct.ext 9 42))
    (Ct.ext 7 42)

end SecureResume

namespace SecureResume

/-! ## Helper lemmas about the slot chains -/

theorem slotLevel_of_five_le (r : Resume) (j : Nat) (hj : 5 ≤ j) :
    slotLevel r j = .uninit := by
  unfold slotLevel
  split_ifs <;> first | omega | rfl

theorem slotName_of_five_le (r : Resume) (j : Nat) (hj : 5 ≤ j) :
    slotName r j = "" := by
  unfold slotName
  split_ifs <;> first | omega | rfl

theorem setSlot_slotLevel (r : Resume) (i j : Nat) (ct : Ct) (nm : String)
    (hi : i < 5) :
    slotLevel (setSlot r i ct nm) j = if j = i then ct else slotLevel r j := by
  by_cases hj : j < 5
  · interval_cases i <;> interval_cases j <;> rfl
  · have h1 := slotLevel_of_five_le (setSlot r i ct nm) j (by omega)
    have h2 := slotLevel_of_five_le r j (by omega)
    rw [h1, if_neg (by omega), h2]

theorem setSlot_slotName (r : Resume) (i j : Nat) (ct : Ct) (nm : String)
    (hi : i < 5) :
    slotName (setSlot r i ct nm) j = if j = i then nm else slotName r j := by
  by_cases hj : j < 5
  · interval_cases i <;> interval_cases j <;> rfl
  · have h1 := slotName_of_five_le (setSlot r i ct nm) j (by omega)
    have h2 := slotName_of_five_le r j (by omega)
    rw [h1, if_neg (by omega), h2]
/-! ## Helper lemmas about one storing step -/

theorem storeStep_resumes (sender i : Nat) (ct : Ct) (nm : String)
    (s : CState) (a : Nat) :
    (storeStep sender i ct nm s).resumes a =
      if a = sender ∧ i < 5 then setSlot (s.resumes sender) i ct nm
      else s.resumes a := by
  unfold storeStep grant
  by_cases hi : i < 5 <;> by_cases ha : a = sender <;>
    simp [hi, ha, Function.update_same, Function.update_noteq]

theorem storeStep_hr (sender i : Nat) (ct : Ct) (nm : String) (s : CState) :
    (storeStep sender i ct nm s).hrAddresses = s.hrAddresses := by
  unfold storeStep grant
  split_ifs <;> rfl

theorem storeStep_total (sender i : Nat) (ct : Ct) (nm : String)
    (s : CState) :
    (storeStep sender i ct nm s).totalResumes = s.totalResumes := by
  unfold storeStep grant
  split_ifs <;> rfl

theorem storeStep_acl (sender i : Nat) (ct : Ct) (nm : String) (s : CState) :
    (storeStep sender i ct nm s).acl =
      if i < 5 then s.acl ++ [(ct, .contract), (ct, .user sender)]
      else s.acl := by
  unfold storeStep grant
  split_ifs <;> simp

/-! ## Helper lemmas about the skill-storing loop -/

theorem storeSkillsFrom_hr (sender p : Nat) :
    ∀ (pairs : List (String × Nat)) (i : Nat) (s : CState),
      (storeSkillsFrom sender p i pairs s).hrAddresses = s.hrAddresses := by
  intro pairs
  induction pairs with
  | nil => intro i s; rfl
  | cons hd tl ih =>
    intro i s
    obtain ⟨nm, h⟩ := hd
    rw [storeSkillsFrom, ih, storeStep_hr]

theorem storeSkillsFrom_total (sender p : Nat) :
    ∀ (pairs : List (String × Nat)) (i : Nat) (s : CState),
      (storeSkillsFrom sender p i pairs s).totalResumes = s.totalResumes := by
  intro pairs
  induction pairs with
  | nil => intro i s; rfl
  | cons hd tl ih =>
    intro i s
    obtain ⟨nm, h⟩ := hd
    rw [storeSkillsFrom, ih, storeStep_total]

theorem storeSkillsFrom_resumes_ne (sender p : Nat) :
    ∀ (pairs : List (String × Nat)) (i : Nat) (s : CState) (a : Nat),
      a ≠ sender →
      (storeSkillsFrom sender p i pairs s).resumes a = s.resumes a := by
  intro pairs
  induction pairs with
  | nil => intro i s a _; rfl
  | cons hd tl ih =>
    intro i s a ha
    obtain ⟨nm, h⟩ := hd
    rw [storeSkillsFrom, ih _ _ _ ha, storeStep_resumes,
      if_neg (fun hc => ha hc.1)]

/-- Any observation of a resume record that `setSlot` cannot change (the
non-slot fields) is preserved by the whole skill-storing loop, at every
address. -/
theorem storeSkillsFrom_pres {α : Type} (sender p : Nat) (f : Resume → α)
    (hf : ∀ r i ct nm, f (setSlot r i ct nm) = f r) :
    ∀ (pairs : List (String × Nat)) (i : Nat) (s : CState) (a : Nat),
      f ((storeSkillsFrom sender p i pairs s).resumes a) = f (s.resumes a) := by
  intro pairs
  induction pairs with
  | nil => intro i s a; rfl
  | cons hd tl ih =>
    intro i s a
    obtain ⟨nm, h⟩ := hd
    rw [storeSkillsFrom, ih, storeStep_resumes]
    split_ifs with hc
    · obtain ⟨ha, _⟩ := hc
      subst ha
      rw [hf]
    · rfl

theorem storeSkillsFrom_name (sender p : Nat) (pairs : List (String × Nat))
    (i : Nat) (s : CState) (a : Nat) :
    ((storeSkillsFrom sender p i pairs s).resumes a).name =
      (s.resumes a).name :=
  storeSkillsFrom_pres sender p Resume.name
    (by intro r i ct nm; unfold setSlot; split_ifs <;> rfl) pairs i s a

theorem storeSkillsFrom_education (sender p : Nat)
    (pairs : List (String × Nat)) (i : Nat) (s : CState) (a : Nat) :
    ((storeSkillsFrom sender p i pairs s).resumes a).education =
      (s.resumes a).education :=
  storeSkillsFrom_pres sender p Resume.education
    (by intro r i ct nm; unfold setSlot; split_ifs <;> rfl) pairs i s a

theorem storeSkillsFrom_workExperience (sender p : Nat)
    (pairs : List (String × Nat)) (i : Nat) (s : CState) (a : Nat) :
    ((storeSkillsFrom sender p i pairs s).resumes a).workExperience =
      (s.resumes a).workExperience :=
  storeSkillsFrom_pres sender p Resume.workExperience
    (by intro r i ct nm; unfold setSlot; split_ifs <;> rfl) pairs i s a

theorem storeSkillsFrom_skillCount (sender p : Nat)
    (pairs : List (String × Nat)) (i : Nat) (s : CState) (a : Nat) :
    ((storeSkillsFrom sender p i pairs s).resumes a).skillCount =
      (s.resumes a).skillCount :=
  storeSkillsFrom_pres sender p Resume.skillCount
    (by intro r i ct nm; unfold setSlot; split_ifs <;> rfl) pairs i s a

theorem storeSkillsFrom_createdAt (sender p : Nat)
    (pairs : List (String × Nat)) (i : Nat) (s : CState) (a : Nat) :
    ((storeSkillsFrom sender p i pairs s).resumes a).createdAt =
      (s.resumes a).createdAt :=
  storeSkillsFrom_pres sender p Resume.createdAt
    (by intro r i ct nm; unfold setSlot; split_ifs <;> rfl) pairs i s a

theorem storeSkillsFrom_updatedAt (sender p : Nat)
    (pairs : List (String × Nat)) (i : Nat) (s : CState) (a : Nat) :
    ((storeSkillsFrom sender p i pairs s).resumes a).updatedAt =
      (s.resumes a).updatedAt :=
  storeSkillsFrom_pres sender p Resume.updatedAt
    (by intro r i ct nm; unfold setSlot; split_ifs <;> rfl) pairs i s a

theorem storeSkillsFrom_exists (sender p : Nat)
    (pairs : List (String × Nat)) (i : Nat) (s : CState) (a : Nat) :
    ((storeSkillsFrom sender p i pairs s).resumes a).exists_ =
      (s.resumes a).exists_ :=
  storeSkillsFrom_pres sender p Resume.exists_
    (by intro r i ct nm; unfold setSlot; split_ifs <;> rfl) pairs i s a

/-- Skill-level slots below the loop's starting index are never touched. -/
theorem storeSkillsFrom_slotLevel_lt (sender p : Nat) :
    ∀ (pairs : List (String × Nat)) (i : Nat) (s : CState) (a j : Nat),
      j < i →
      slotLevel ((storeSkillsFrom sender p i pairs s).resumes a) j =
        slotLevel (s.resumes a) j := by
  intro pairs
  induction pairs with
  | nil => intro i s a j _; rfl
  | cons hd tl ih =>
    intro i s a j hj
    obtain ⟨nm, h⟩ := hd
    rw [storeSkillsFrom, ih _ _ _ _ (by omega), storeStep_resumes]
    split_ifs with hc
    · obtain ⟨ha, hi⟩ := hc
      subst ha
      rw [setSlot_slotLevel _ _ _ _ _ hi, if_neg (by omega)]
    · rfl

/-- Skill-name slots below the loop's starting index are never touched. -/
theorem storeSkillsFrom_slotName_lt (sender p : Nat) :
    ∀ (pairs : List (String × Nat)) (i : Nat) (s : CState) (a j : Nat),
      j < i →
      slotName ((storeSkillsFrom sender p i pairs s).resumes a) j =
        slotName (s.resumes a) j := by
  intro pairs
  induction pairs with
  | nil => intro i s a j _; rfl
  | cons hd tl ih =>
    intro i s a j hj
    obtain ⟨nm, h⟩ := hd
    rw [storeSkillsFrom, ih _ _ _ _ (by omega), storeStep_resumes]
    split_ifs with hc
    · obtain ⟨ha, hi⟩ := hc
      subst ha
      rw [setSlot_slotName _ _ _ _ _ hi, if_neg (by omega)]
    · rfl

/-- After the loop, slot `i + j` of the sender's record holds exactly the
`j`-th (name, imported ciphertext) pair. -/
theorem storeSkillsFrom_slot_get (sender p : Nat) :
    ∀ (pairs : List (String × Nat)) (i : Nat) (s : CState) (j : Nat)
      (hj : j < pairs.length),
      i + pairs.length ≤ 5 →
      slotLevel ((storeSkillsFrom sender p i pairs s).resumes sender) (i + j) =
          Ct.ext (pairs.get ⟨j, hj⟩).2 p ∧
        slotName ((storeSkillsFrom sender p i pairs s).resumes sender) (i + j) =
          (pairs.get ⟨j, hj⟩).1 := by
  intro pairs
  induction pairs with
  | nil => intro i s j hj _; exact absurd hj (by simp)
  | cons hd tl ih =>
    intro i s j hj hlen
    obtain ⟨nm, h⟩ := hd
    rw [storeSkillsFrom]
    match j with
    | 0 =>
      have hi : i < 5 := by simp at hlen; omega
      constructor
      · rw [storeSkillsFrom_slotLevel_lt _ _ _ _ _ _ _ (by omega),
          storeStep_resumes, if_pos ⟨rfl, hi⟩,
          setSlot_slotLevel _ _ _ _ _ hi]
        simp
      · rw [storeSkillsFrom_slotName_lt _ _ _ _ _ _ _ (by omega),
          storeStep_resumes, if_pos ⟨rfl, hi⟩,
          setSlot_slotName _ _ _ _ _ hi]
        simp
    | k + 1 =>
      have hk : k < tl.length := by simp at hj; omega
      have := ih (i + 1) (storeStep sender i (Ct.ext h p) nm s) k hk
        (by simp at hlen; omega)
      constructor
      · rw [show i + (k + 1) = (i + 1) + k by omega]
        exact this.1
      · rw [show i + (k + 1) = (i + 1) + k by omega]
        exact this.2

/-- The loop only appends to the ACL. -/
theorem storeSkillsFrom_acl_mono (sender p : Nat) :
    ∀ (pairs : List (String × Nat)) (i : Nat) (s : CState)
      (cp : Ct × Principal),
      cp ∈ s.acl → cp ∈ (storeSkillsFrom sender p i pairs s).acl := by
  intro pairs
  induction pairs with
  | nil => intro i s cp hcp; exact hcp
  | cons hd tl ih =>
    intro i s cp hcp
    obtain ⟨nm, h⟩ := hd
    rw [storeSkillsFrom]
    refine ih _ _ _ ?_
    rw [storeStep_acl]
    split_ifs
    · exact List.mem_append_left _ hcp
    · exact hcp

/-- Every skill ciphertext the loop stores is granted to the contract and
to the sender. -/
theorem storeSkillsFrom_acl_grants (sender p : Nat) :
    ∀ (pairs : List (String × Nat)) (i : Nat) (s : CState) (j : Nat)
      (hj : j < pairs.length),
      i + pairs.length ≤ 5 →
      (Ct.ext (pairs.get ⟨j, hj⟩).2 p, Principal.contract) ∈
          (storeSkillsFrom sender p i pairs s).acl ∧
        (Ct.ext (pairs.get ⟨j, hj⟩).2 p, Principal.user sender) ∈
          (storeSkillsFrom sender p i pairs s).acl := by
  intro pairs
  induction pairs with
  | nil => intro i s j hj _; exact absurd hj (by simp)
  | cons hd tl ih =>
    intro i s j hj hlen
    obtain ⟨nm, h⟩ := hd
    rw [storeSkillsFrom]
    match j with
    | 0 =>
      have hi : i < 5 := by simp at hlen; omega
      constructor
      · refine storeSkillsFrom_acl_mono _ _ _ _ _ _ ?_
        rw [storeStep_acl, if_pos hi]
        simp
      · refine storeSkillsFrom_acl_mono _ _ _ _ _ _ ?_
        rw [storeStep_acl, if_pos hi]
        simp
    | k + 1 =>
      have hk : k < tl.length := by simp at hj; omega
      exact ih (i + 1) _ k hk (by simp at hlen; omega)

/-! ## Characterizations of `submitResume` and `updateResume` -/

theorem submitResume_error_iff (s : CState) (sender t : Nat)
    (n e w : String) (sn : List String) (sl : List Nat) (p : Nat) :
    (∃ err, submitResume s sender t n e w sn sl p = Except.error err) ↔
      (sn.length ≠ sl.length ∨ sn.length = 0 ∨ 5 < sn.length ∨ n = "") := by
  unfold submitResume
  split_ifs with h1 h2 h3
  · exact ⟨fun _ => Or.inr (Or.inr (Or.inr h3)), fun _ => ⟨_, rfl⟩⟩
  · constructor
    · intro ⟨err, hc⟩
      exact hc.elim
    · intro hc
      rcases hc with hc | hc | hc | hc
      · exact absurd h1 hc
      · omega
      · omega
      · exact absurd hc h3
  · constructor
    · intro _
      by_cases hz : sn.length = 0
      · exact Or.inr (Or.inl hz)
      · exact Or.inr (Or.inr (Or.inl (by omega)))
    · intro _
      exact ⟨_, rfl⟩
  · exact ⟨fun _ => Or.inl h1, fun _ => ⟨_, rfl⟩⟩

theorem updateResume_error_iff (s : CState) (sender t : Nat)
    (n e w : String) (sn : List String) (sl : List Nat) (p : Nat) :
    (∃ err, updateResume s sender t n e w sn sl p = Except.error err) ↔
      ((s.resumes sender).exists_ = false ∨ sn.length ≠ sl.length ∨
        sn.length = 0 ∨ 5 < sn.length ∨ n = "") := by
  unfold updateResume
  split_ifs with h0 h1 h2 h3
  · exact ⟨fun _ => Or.inr (Or.inr (Or.inr (Or.inr h3))),
      fun _ => ⟨_, rfl⟩⟩
  · constructor
    · intro ⟨err, hc⟩
      exact hc.elim
    · intro hc
      rcases hc with hc | hc | hc | hc | hc
      · rw [h0] at hc
        exact Bool.noConfusion hc
      · exact absurd h1 hc
      · omega
      · omega
      · exact absurd hc h3
  · constructor
    · intro _
      by_cases hz : sn.length = 0
      · exact Or.inr (Or.inr (Or.inl hz))
      · exact Or.inr (Or.inr (Or.inr (Or.inl (by omega))))
    · intro _
      exact ⟨_, rfl⟩
  · exact ⟨fun _ => Or.inr (Or.inl h1), fun _ => ⟨_, rfl⟩⟩
  · constructor
    · intro _
      left
      simpa using h0
    · intro _
      exact ⟨_, rfl⟩

theorem submitResume_ok_meta (s s' : CState) (sender t : Nat)
    (n e w : String) (sn : List String) (sl : List Nat) (p : Nat)
    (hok : submitResume s sender t n e w sn sl p = Except.ok s') :
    (s'.resumes sender).name = n ∧ (s'.resumes sender).education = e ∧
      (s'.resumes sender).workExperience = w ∧
      (s'.resumes sender).skillCount = sn.length ∧
      (s'.resumes sender).createdAt = t ∧
      (s'.resumes sender).updatedAt = t ∧
      (s'.resumes sender).exists_ = true := by
  unfold submitResume at hok
  split_ifs at hok <;> try exact (Except.noConfusion hok)
  cases hok
  refine ⟨?_, ?_, ?_, ?_, ?_, ?_, ?_⟩
  · rw [storeSkillsFrom_name]; simp [submitState, updateState]
  · rw [storeSkillsFrom_education]; simp [submitState, updateState]
  · rw [storeSkillsFrom_workExperience]; simp [submitState, updateState]
  · rw [storeSkillsFrom_skillCount]; simp [submitState, updateState]
  · rw [storeSkillsFrom_createdAt]; simp [submitState, updateState]
  · rw [storeSkillsFrom_updatedAt]; simp [submitState, updateState]
  · rw [storeSkillsFrom_exists]; simp [submitState, updateState]

theorem updateResume_ok_meta (s s' : CState) (sender t : Nat)
    (n e w : String) (sn : List String) (sl : List Nat) (p : Nat)
    (hok : updateResume s sender t n e w sn sl p = Except.ok s') :
    (s'.resumes sender).name = n ∧ (s'.resumes sender).education = e ∧
      (s'.resumes sender).workExperience = w ∧
      (s'.resumes sender).skillCount = sn.length ∧
      (s'.resumes sender).createdAt = (s.resumes sender).createdAt ∧
      (s'.resumes sender).updatedAt = t ∧
      (s'.resumes sender).exists_ = (s.resumes sender).exists_ := by
  unfold updateResume at hok
  split_ifs at hok <;> try exact (Except.noConfusion hok)
  cases hok
  refine ⟨?_, ?_, ?_, ?_, ?_, ?_, ?_⟩
  · rw [storeSkillsFrom_name]; simp [submitState, updateState]
  · rw [storeSkillsFrom_education]; simp [submitState, updateState]
  · rw [storeSkillsFrom_workExperience]; simp [submitState, updateState]
  · rw [storeSkillsFrom_skillCount]; simp [submitState, updateState]
  · rw [storeSkillsFrom_createdAt]; simp [submitState, updateState]
  · rw [storeSkillsFrom_updatedAt]; simp [submitState, updateState]
  · rw [storeSkillsFrom_exists]; simp [submitState, updateState]

theorem submitResume_resumes_ne (s s' : CState) (sender t : Nat)
    (n e w : String) (sn : List String) (sl : List Nat) (p a : Nat)
    (hok : submitResume s sender t n e w sn sl p = Except.ok s')
    (ha : a ≠ sender) :
    s'.resumes a = s.resumes a := by
  unfold submitResume at hok
  split_ifs at hok <;> try exact (Except.noConfusion hok)
  cases hok
  rw [storeSkillsFrom_resumes_ne _ _ _ _ _ _ ha]
  simp [submitState, updateState, Function.update_noteq ha]

theorem updateResume_resumes_ne (s s' : CState) (sender t : Nat)
    (n e w : String) (sn : List String) (sl : List Nat) (p a : Nat)
    (hok : updateResume s sender t n e w sn sl p = Except.ok s')
    (ha : a ≠ sender) :
    s'.resumes a = s.resumes a := by
  unfold updateResume at hok
  split_ifs at hok <;> try exact (Except.noConfusion hok)
  cases hok
  rw [storeSkillsFrom_resumes_ne _ _ _ _ _ _ ha]
  simp [submitState, updateState, Function.update_noteq ha]

theorem submitResume_hr_total (s s' : CState) (sender t : Nat)
    (n e w : String) (sn : List String) (sl : List Nat) (p : Nat)
    (hok : submitResume s sender t n e w sn sl p = Except.ok s') :
    s'.hrAddresses = s.hrAddresses ∧
      s'.totalResumes = s.totalResumes + 1 := by
  unfold submitResume at hok
  split_ifs at hok <;> try exact (Except.noConfusion hok)
  cases hok
  rw [storeSkillsFrom_hr, storeSkillsFrom_total]
  exact ⟨rfl, rfl⟩

theorem updateResume_hr_total (s s' : CState) (sender t : Nat)
    (n e w : String) (sn : List String) (sl : List Nat) (p : Nat)
    (hok : updateResume s sender t n e w sn sl p = Except.ok s') :
    s'.hrAddresses = s.hrAddresses ∧ s'.totalResumes = s.totalResumes := by
  unfold updateResume at hok
  split_ifs at hok <;> try exact (Except.noConfusion hok)
  cases hok
  rw [storeSkillsFrom_hr, storeSkillsFrom_total]
  exact ⟨rfl, rfl⟩

theorem submitResume_ok_conditions (s s' : CState) (sender t : Nat)
    (n e w : String) (sn : List String) (sl : List Nat) (p : Nat)
    (hok : submitResume s sender t n e w sn sl p = Except.ok s') :
    sn.length = sl.length ∧ 0 < sn.length ∧ sn.length ≤ 5 ∧ n ≠ "" := by
  unfold submitResume at hok
  split_ifs at hok with h1 h2 h3 <;> first
  | exact (Except.noConfusion hok)
  | exact ⟨h1, h2.1, h2.2, h3⟩

theorem updateResume_ok_conditions (s s' : CState) (sender t : Nat)
    (n e w : String) (sn : List String) (sl : List Nat) (p : Nat)
    (hok : updateResume s sender t n e w sn sl p = Except.ok s') :
    (s.resumes sender).exists_ = true ∧ sn.length = sl.length ∧
      0 < sn.length ∧ sn.length ≤ 5 ∧ n ≠ "" := by
  unfold updateResume at hok
  split_ifs at hok with h0 h1 h2 h3 <;> first
  | exact (Except.noConfusion hok)
  | exact ⟨h0, h1, h2.1, h2.2, h3⟩

theorem submitResume_ok_slots (s s' : CState) (sender t : Nat)
    (n e w : String) (sn : List String) (sl : List Nat) (p : Nat)
    (hok : submitResume s sender t n e w sn sl p = Except.ok s')
    (j : Nat) (hj : j < sn.length) (hj' : j < sl.length) :
    slotLevel (s'.resumes sender) j = Ct.ext (sl.get ⟨j, hj'⟩) p ∧
      slotName (s'.resumes sender) j = sn.get ⟨j, hj⟩ := by
  obtain ⟨hlen, _, h5, _⟩ := submitResume_ok_conditions _ _ _ _ _ _ _ _ _ _ hok
  unfold submitResume at hok
  split_ifs at hok <;> try exact (Except.noConfusion hok)
  cases hok
  have hjz : j < (sn.zip sl).length := by
    rw [List.length_zip]
    omega
  have := storeSkillsFrom_slot_get sender p (sn.zip sl) 0
    (submitState s sender t n e w sn.length) j hjz
    (by rw [List.length_zip]; omega)
  rw [Nat.zero_add] at this
  rw [this.1, this.2, List.get_zip]
  exact ⟨rfl, rfl⟩

theorem updateResume_ok_slots (s s' : CState) (sender t : Nat)
    (n e w : String) (sn : List String) (sl : List Nat) (p : Nat)
    (hok : updateResume s sender t n e w sn sl p = Except.ok s')
    (j : Nat) (hj : j < sn.length) (hj' : j < sl.length) :
    slotLevel (s'.resumes sender) j = Ct.ext (sl.get ⟨j, hj'⟩) p ∧
      slotName (s'.resumes sender) j = sn.get ⟨j, hj⟩ := by
  obtain ⟨_, hlen, _, h5, _⟩ := updateResume_ok_conditions _ _ _ _ _ _ _ _ _ _ hok
  unfold updateResume at hok
  split_ifs at hok <;> try exact (Except.noConfusion hok)
  cases hok
  have hjz : j < (sn.zip sl).length := by
    rw [List.length_zip]
    omega
  have := storeSkillsFrom_slot_get sender p (sn.zip sl) 0
    (updateState s sender t n e w sn.length) j hjz
    (by rw [List.length_zip]; omega)
  rw [Nat.zero_add] at this
  rw [this.1, this.2, List.get_zip]
  exact ⟨rfl, rfl⟩

theorem submitResume_ok_grants (s s' : CState) (sender t : Nat)
    (n e w : String) (sn : List String) (sl : List Nat) (p : Nat)
    (hok : submitResume s sender t n e w sn sl p = Except.ok s')
    (j : Nat) (hj' : j < sl.length) (hjn : j < sn.length) :
    (Ct.ext (sl.get ⟨j, hj'⟩) p, Principal.contract) ∈ s'.acl ∧
      (Ct.ext (sl.get ⟨j, hj'⟩) p, Principal.user sender) ∈ s'.acl := by
  obtain ⟨hlen, _, h5, _⟩ := submitResume_ok_conditions _ _ _ _ _ _ _ _ _ _ hok
  unfold submitResume at hok
  split_ifs at hok <;> try exact (Except.noConfusion hok)
  cases hok
  have hjz : j < (sn.zip sl).length := by
    rw [List.length_zip]
    omega
  have := storeSkillsFrom_acl_grants sender p (sn.zip sl) 0
    (submitState s sender t n e w sn.length) j hjz
    (by rw [List.length_zip]; omega)
  rw [List.get_zip] at this
  exact this

theorem updateResume_ok_grants (s s' : CState) (sender t : Nat)
    (n e w : String) (sn : List String) (sl : List Nat) (p : Nat)
    (hok : updateResume s sender t n e w sn sl p = Except.ok s')
    (j : Nat) (hj' : j < sl.length) (hjn : j < sn.length) :
    (Ct.ext (sl.get ⟨j, hj'⟩) p, Principal.contract) ∈ s'.acl ∧
      (Ct.ext (sl.get ⟨j, hj'⟩) p, Principal.user sender) ∈ s'.acl := by
  obtain ⟨_, hlen, _, h5, _⟩ := updateResume_ok_conditions _ _ _ _ _ _ _ _ _ _ hok
  unfold updateResume at hok
  split_ifs at hok <;> try exact (Except.noConfusion hok)
  cases hok
  have hjz : j < (sn.zip sl).length := by
    rw [List.length_zip]
    omega
  have := storeSkillsFrom_acl_grants sender p (sn.zip sl) 0
    (updateState s sender t n e w sn.length) j hjz
    (by rw [List.length_zip]; omega)
  rw [List.get_zip] at this
  exact this

/-! ## Characterizations of the HR evaluation functions -/

theorem scoreLoop_eq_fold (r : Resume) (h5 : r.skillCount ≤ 5) :
    ∀ (idxs : List Nat) (acc : Ct), (∀ i ∈ idxs, i < r.skillCount) →
      scoreLoop r idxs acc =
        Except.ok (idxs.foldl (fun a i => Ct.add a (slotLevel r i)) acc) := by
  intro idxs
  induction idxs with
  | nil => intro acc _; rfl
  | cons hd tl ih =>
    intro acc hall
    have h1 : hd < r.skillCount := hall hd (List.mem_cons_self hd tl)
    rw [scoreLoop, if_pos h1, if_pos (by omega), List.foldl_cons]
    exact ih _ (fun i hi => hall i (List.mem_cons_of_mem hd hi))

theorem calculateSkillScore_eq (s : CState) (sender candidate : Nat)
    (idxs : List Nat)
    (hhr : s.hrAddresses sender = true)
    (hex : (s.resumes candidate).exists_ = true)
    (h5 : (s.resumes candidate).skillCount ≤ 5)
    (hall : ∀ i ∈ idxs, i < (s.resumes candidate).skillCount) :
    calculateSkillScore s sender candidate idxs =
      Except.ok
        (idxs.foldl (fun a i => Ct.add a (slotLevel (s.resumes candidate) i))
          (Ct.const 0),
        grant
          (grant s
            (idxs.foldl
              (fun a i => Ct.add a (slotLevel (s.resumes candidate) i))
              (Ct.const 0))
            .contract)
          (idxs.foldl
            (fun a i => Ct.add a (slotLevel (s.resumes candidate) i))
            (Ct.const 0))
          (.user sender)) := by
  unfold calculateSkillScore
  rw [hhr, hex, if_pos rfl, if_pos rfl,
    scoreLoop_eq_fold (s.resumes candidate) h5 idxs (Ct.const 0) hall]

theorem evaluateSkillMatch_eq (s : CState) (sender candidate i : Nat)
    (hhr : s.hrAddresses sender = true)
    (hex : (s.resumes candidate).exists_ = true)
    (hidx : i < (s.resumes candidate).skillCount)
    (h5 : (s.resumes candidate).skillCount ≤ 5) :
    evaluateSkillMatch s sender candidate i =
      Except.ok
        (slotLevel (s.resumes candidate) i,
        grant (grant s (slotLevel (s.resumes candidate) i) .contract)
          (slotLevel (s.resumes candidate) i) (.user sender)) := by
  unfold evaluateSkillMatch
  rw [hhr, hex, if_pos rfl, if_pos rfl, if_pos hidx, if_pos (by omega)]

theorem evaluateSkillMatch_not_hr (s : CState) (sender candidate i : Nat)
    (hhr : s.hrAddresses sender = false) :
    evaluateSkillMatch s sender candidate i =
      Except.error "Not authorized HR" := by
  unfold evaluateSkillMatch
  rw [hhr]
  rfl

theorem calculateSkillScore_not_hr (s : CState) (sender candidate : Nat)
    (idxs : List Nat) (hhr : s.hrAddresses sender = false) :
    calculateSkillScore s sender candidate idxs =
      Except.error "Not authorized HR" := by
  unfold calculateSkillScore
  rw [hhr]
  rfl

theorem evaluateSkillMatch_hr_no_auth_error (s : CState)
    (sender candidate i : Nat) (err : String)
    (hhr : s.hrAddresses sender = true)
    (herr : evaluateSkillMatch s sender candidate i = Except.error err) :
    err ≠ "Not authorized HR" := by
  unfold evaluateSkillMatch at herr
  rw [hhr, if_pos rfl] at herr
  split_ifs at herr <;> first
  | exact (Except.noConfusion herr)
  | (cases herr; simp)

/-- Every error the score loop raises is the invalid-index one. -/
theorem scoreLoop_error (r : Resume) :
    ∀ (idxs : List Nat) (acc : Ct) (err : String),
      scoreLoop r idxs acc = Except.error err →
      err = "Invalid skill index" := by
  intro idxs
  induction idxs with
  | nil => intro acc err h; exact (Except.noConfusion h)
  | cons hd tl ih =>
    intro acc err h
    rw [scoreLoop] at h
    split_ifs at h
    · exact ih _ _ h
    · exact ih _ _ h
    · cases h
      rfl

theorem calculateSkillScore_hr_no_auth_error (s : CState)
    (sender candidate : Nat) (idxs : List Nat) (err : String)
    (hhr : s.hrAddresses sender = true)
    (herr : calculateSkillScore s sender candidate idxs =
      Except.error err) :
    err ≠ "Not authorized HR" := by
  unfold calculateSkillScore at herr
  rw [hhr, if_pos rfl] at herr
  split_ifs at herr
  · cases hsl : scoreLoop (s.resumes candidate) idxs (Ct.const 0) with
    | ok total =>
      rw [hsl] at herr
      exact (Except.noConfusion herr)
    | error e =>
      rw [hsl] at herr
      cases herr
      simp [scoreLoop_error (s.resumes candidate) idxs (Ct.const 0) _ hsl]
  · cases herr
    simp

/-! ## The views -/

theorem buildSkillNames_length (r : Resume) :
    (buildSkillNames r).length = r.skillCount := by
  unfold buildSkillNames
  split_ifs <;> simp

theorem buildSkillLevels_length (r : Resume) :
    (buildSkillLevels r).length = r.skillCount := by
  unfold buildSkillLevels
  split_ifs <;> simp

theorem buildSkillNames_getD (r : Resume) (h5 : r.skillCount ≤ 5) (j : Nat)
    (hj : j < r.skillCount) :
    (buildSkillNames r).getD j "" = slotName r j := by
  have hc : r.skillCount = 0 ∨ r.skillCount = 1 ∨ r.skillCount = 2 ∨
      r.skillCount = 3 ∨ r.skillCount = 4 ∨ r.skillCount = 5 := by omega
  rcases hc with hc | hc | hc | hc | hc | hc <;> rw [hc] at hj <;>
    first
    | omega
    | (simp only [buildSkillNames, hc]
       norm_num
       interval_cases j <;> rfl)

theorem buildSkillLevels_getD (r : Resume) (h5 : r.skillCount ≤ 5) (j : Nat)
    (hj : j < r.skillCount) :
    (buildSkillLevels r).getD j Ct.uninit = slotLevel r j := by
  have hc : r.skillCount = 0 ∨ r.skillCount = 1 ∨ r.skillCount = 2 ∨
      r.skillCount = 3 ∨ r.skillCount = 4 ∨ r.skillCount = 5 := by omega
  rcases hc with hc | hc | hc | hc | hc | hc <;> rw [hc] at hj <;>
    first
    | omega
    | (simp only [buildSkillLevels, hc]
       norm_num
       interval_cases j <;> rfl)

theorem getResumeInfo_not_exists (s : CState) (u : Nat)
    (h : (s.resumes u).exists_ = false) :
    getResumeInfo s u = Except.error "Resume does not exist" := by
  unfold getResumeInfo
  rw [h]
  rfl

theorem getSkillLevels_not_exists (s : CState) (u : Nat)
    (h : (s.resumes u).exists_ = false) :
    getSkillLevels s u = Except.error "Resume does not exist" := by
  unfold getSkillLevels
  rw [h]
  rfl

theorem getResumeInfo_exists (s : CState) (u : Nat)
    (h : (s.resumes u).exists_ = true) :
    getResumeInfo s u =
      Except.ok
        { name := (s.resumes u).name, education := (s.resumes u).education
          workExperience := (s.resumes u).workExperience
          skillNames := buildSkillNames (s.resumes u)
          createdAt := (s.resumes u).createdAt
          updatedAt := (s.resumes u).updatedAt } := by
  unfold getResumeInfo
  rw [h, if_pos rfl]

theorem getSkillLevels_exists (s : CState) (u : Nat)
    (h : (s.resumes u).exists_ = true) :
    getSkillLevels s u = Except.ok (buildSkillLevels (s.resumes u)) := by
  unfold getSkillLevels
  rw [h, if_pos rfl]

/-- Two lists of the same length whose `getD` views agree are equal. -/
theorem list_ext_getD {α : Type} (d : α) :
    ∀ (l1 l2 : List α), l1.length = l2.length →
      (∀ j, j < l1.length → l1.getD j d = l2.getD j d) → l1 = l2 := by
  intro l1
  induction l1 with
  | nil =>
    intro l2 hlen _
    cases l2 with
    | nil => rfl
    | cons b t2 => exact absurd hlen (by simp)
  | cons a t ih =>
    intro l2 hlen hj
    cases l2 with
    | nil => exact absurd hlen (by simp)
    | cons b t2 =>
      have h0 : a = b := hj 0 (by simp)
      have ht : t = t2 := by
        refine ih t2 (by simpa using hlen) ?_
        intro j hjj
        exact hj (j + 1) (by simp; omega)
      rw [h0, ht]

/-! ## State shape of the remaining operations -/

theorem evaluateSkillMatch_ok_state (s s' : CState)
    (sender candidate i : Nat) (c : Ct)
    (hok : evaluateSkillMatch s sender candidate i = Except.ok (c, s')) :
    s'.resumes = s.resumes ∧ s'.hrAddresses = s.hrAddresses ∧
      s'.totalResumes = s.totalResumes := by
  unfold evaluateSkillMatch at hok
  split_ifs at hok <;> try exact (Except.noConfusion hok)
  cases hok
  exact ⟨rfl, rfl, rfl⟩

theorem calculateSkillScore_ok_state (s s' : CState)
    (sender candidate : Nat) (idxs : List Nat) (c : Ct)
    (hok : calculateSkillScore s sender candidate idxs =
      Except.ok (c, s')) :
    s'.resumes = s.resumes ∧ s'.hrAddresses = s.hrAddresses ∧
      s'.totalResumes = s.totalResumes := by
  unfold calculateSkillScore at hok
  split_ifs at hok <;> try exact (Except.noConfusion hok)
  revert hok
  cases scoreLoop (s.resumes candidate) idxs (Ct.const 0) with
  | error e => intro hok; exact (Except.noConfusion hok)
  | ok total =>
    intro hok
    cases hok
    exact ⟨rfl, rfl, rfl⟩

theorem authorizeHR_ok_state (s s' : CState) (sender hr : Nat)
    (hok : authorizeHR s sender hr = Except.ok s') :
    s'.resumes = s.resumes ∧ s'.totalResumes = s.totalResumes ∧
      s'.acl = s.acl ∧
      s'.hrAddresses = Function.update s.hrAddresses hr true := by
  unfold authorizeHR at hok
  split_ifs at hok <;> try exact (Except.noConfusion hok)
  cases hok
  exact ⟨rfl, rfl, rfl, rfl⟩

theorem revokeHR_ok_state (s s' : CState) (sender hr : Nat)
    (hok : revokeHR s sender hr = Except.ok s') :
    s'.resumes = s.resumes ∧ s'.totalResumes = s.totalResumes ∧
      s'.acl = s.acl ∧
      s'.hrAddresses = Function.update s.hrAddresses hr false := by
  unfold revokeHR at hok
  split_ifs at hok <;> try exact (Except.noConfusion hok)
  cases hok
  exact ⟨rfl, rfl, rfl, rfl⟩

/-! ## Transaction-level lemmas -/

theorem execOp_resumes_ne (s : CState) (op : Op) (u : Nat)
    (h : writesResume u op = false) :
    (execOp s op).resumes u = s.resumes u := by
  cases op with
  | submit sender t n e w sn sl p =>
    simp only [execOp]
    cases hs : submitResume s sender t n e w sn sl p with
    | error _ => rfl
    | ok s' =>
      have hu : u ≠ sender := by
        simp [writesResume] at h
        omega
      show s'.resumes u = s.resumes u
      exact submitResume_resumes_ne _ _ _ _ _ _ _ _ _ _ _ hs
        (fun hc => hu hc)
  | update sender t n e w sn sl p =>
    simp only [execOp]
    cases hs : updateResume s sender t n e w sn sl p with
    | error _ => rfl
    | ok s' =>
      have hu : u ≠ sender := by
        simp [writesResume] at h
        omega
      show s'.resumes u = s.resumes u
      exact updateResume_resumes_ne _ _ _ _ _ _ _ _ _ _ _ hs
        (fun hc => hu hc)
  | evaluate sender candidate i =>
    simp only [execOp]
    cases hs : evaluateSkillMatch s sender candidate i with
    | error _ => rfl
    | ok cs =>
      obtain ⟨c, s'⟩ := cs
      show s'.resumes u = s.resumes u
      rw [(evaluateSkillMatch_ok_state _ _ _ _ _ _ hs).1]
  | calculate sender candidate idxs =>
    simp only [execOp]
    cases hs : calculateSkillScore s sender candidate idxs with
    | error _ => rfl
    | ok cs =>
      obtain ⟨c, s'⟩ := cs
      show s'.resumes u = s.resumes u
      rw [(calculateSkillScore_ok_state _ _ _ _ _ _ hs).1]
  | authorize sender hr =>
    simp only [execOp]
    cases hs : authorizeHR s sender hr with
    | error _ => rfl
    | ok s' =>
      show s'.resumes u = s.resumes u
      rw [(authorizeHR_ok_state _ _ _ _ hs).1]
  | revoke sender hr =>
    simp only [execOp]
    cases hs : revokeHR s sender hr with
    | error _ => rfl
    | ok s' =>
      show s'.resumes u = s.resumes u
      rw [(revokeHR_ok_state _ _ _ _ hs).1]

theorem run_resumes_ne (u : Nat) :
    ∀ (ops : List Op) (s : CState),
      (∀ op ∈ ops, writesResume u op = false) →
      (run s ops).resumes u = s.resumes u := by
  intro ops
  induction ops with
  | nil => intro s _; rfl
  | cons op rest ih =>
    intro s hall
    show (run (execOp s op) rest).resumes u = s.resumes u
    rw [ih _ (fun o ho => hall o (List.mem_cons_of_mem op ho)),
      execOp_resumes_ne _ _ _ (hall op (List.mem_cons_self op rest))]

theorem execOp_exists_mono (s : CState) (op : Op) (u : Nat)
    (h : (s.resumes u).exists_ = true) :
    ((execOp s op).resumes u).exists_ = true := by
  cases op with
  | submit sender t n e w sn sl p =>
    simp only [execOp]
    cases hs : submitResume s sender t n e w sn sl p with
    | error _ => exact h
    | ok s' =>
      show (s'.resumes u).exists_ = true
      by_cases hu : u = sender
      · subst hu
        exact (submitResume_ok_meta _ _ _ _ _ _ _ _ _ _ hs).2.2.2.2.2.2
      · rw [submitResume_resumes_ne _ _ _ _ _ _ _ _ _ _ _ hs hu]
        exact h
  | update sender t n e w sn sl p =>
    simp only [execOp]
    cases hs : updateResume s sender t n e w sn sl p with
    | error _ => exact h
    | ok s' =>
      show (s'.resumes u).exists_ = true
      by_cases hu : u = sender
      · subst hu
        rw [(updateResume_ok_meta _ _ _ _ _ _ _ _ _ _ hs).2.2.2.2.2.2]
        exact h
      · rw [updateResume_resumes_ne _ _ _ _ _ _ _ _ _ _ _ hs hu]
        exact h
  | evaluate sender candidate i =>
    simp only [execOp]
    cases hs : evaluateSkillMatch s sender candidate i with
    | error _ => exact h
    | ok cs =>
      obtain ⟨c, s'⟩ := cs
      show (s'.resumes u).exists_ = true
      rw [(evaluateSkillMatch_ok_state _ _ _ _ _ _ hs).1]
      exact h
  | calculate sender candidate idxs =>
    simp only [execOp]
    cases hs : calculateSkillScore s sender candidate idxs with
    | error _ => exact h
    | ok cs =>
      obtain ⟨c, s'⟩ := cs
      show (s'.resumes u).exists_ = true
      rw [(calculateSkillScore_ok_state _ _ _ _ _ _ hs).1]
      exact h
  | authorize sender hr =>
    simp only [execOp]
    cases hs : authorizeHR s sender hr with
    | error _ => exact h
    | ok s' =>
      show (s'.resumes u).exists_ = true
      rw [(authorizeHR_ok_state _ _ _ _ hs).1]
      exact h
  | revoke sender hr =>
    simp only [execOp]
    cases hs : revokeHR s sender hr with
    | error _ => exact h
    | ok s' =>
      show (s'.resumes u).exists_ = true
      rw [(revokeHR_ok_state _ _ _ _ hs).1]
      exact h

theorem run_exists_mono (u : Nat) :
    ∀ (ops : List Op) (s : CState), (s.resumes u).exists_ = true →
      ((run s ops).resumes u).exists_ = true := by
  intro ops
  induction ops with
  | nil => intro s h; exact h
  | cons op rest ih =>
    intro s h
    exact ih (execOp s op) (execOp_exists_mono s op u h)

theorem execOp_total (s : CState) (op : Op) :
    (execOp s op).totalResumes = s.totalResumes + submitInc s op := by
  cases op with
  | submit sender t n e w sn sl p =>
    simp only [execOp, submitInc]
    cases hs : submitResume s sender t n e w sn sl p with
    | error _ => rfl
    | ok s' =>
      show s'.totalResumes = s.totalResumes + 1
      exact (submitResume_hr_total _ _ _ _ _ _ _ _ _ _ hs).2
  | update sender t n e w sn sl p =>
    simp only [execOp, submitInc]
    cases hs : updateResume s sender t n e w sn sl p with
    | error _ => rfl
    | ok s' =>
      show s'.totalResumes = s.totalResumes + 0
      rw [(updateResume_hr_total _ _ _ _ _ _ _ _ _ _ hs).2]
      omega
  | evaluate sender candidate i =>
    simp only [execOp, submitInc]
    cases hs : evaluateSkillMatch s sender candidate i with
    | error _ => rfl
    | ok cs =>
      obtain ⟨c, s'⟩ := cs
      show s'.totalResumes = s.totalResumes + 0
      rw [(evaluateSkillMatch_ok_state _ _ _ _ _ _ hs).2.2]
      omega
  | calculate sender candidate idxs =>
    simp only [execOp, submitInc]
    cases hs : calculateSkillScore s sender candidate idxs with
    | error _ => rfl
    | ok cs =>
      obtain ⟨c, s'⟩ := cs
      show s'.totalResumes = s.totalResumes + 0
      rw [(calculateSkillScore_ok_state _ _ _ _ _ _ hs).2.2]
      omega
  | authorize sender hr =>
    simp only [execOp, submitInc]
    cases hs : authorizeHR s sender hr with
    | error _ => rfl
    | ok s' =>
      show s'.totalResumes = s.totalResumes + 0
      rw [(authorizeHR_ok_state _ _ _ _ hs).2.1]
      omega
  | revoke sender hr =>
    simp only [execOp, submitInc]
    cases hs : revokeHR s sender hr with
    | error _ => rfl
    | ok s' =>
      show s'.totalResumes = s.totalResumes + 0
      rw [(revokeHR_ok_state _ _ _ _ hs).2.1]
      omega

theorem run_total :
    ∀ (ops : List Op) (s : CState),
      (run s ops).totalResumes =
        s.totalResumes + countSuccessfulSubmits s ops := by
  intro ops
  induction ops with
  | nil => intro s; rfl
  | cons op rest ih =>
    intro s
    show (run (execOp s op) rest).totalResumes = _
    rw [ih, execOp_total, countSuccessfulSubmits]
    omega

/-! ## The comparison-freeness invariant -/

theorem initState_cmpFree : CmpFree initState := by
  constructor
  · intro u j
    show (slotLevel emptyResume j).usesCmp = false
    unfold slotLevel
    split_ifs <;> rfl
  · intro cp hcp
    exact absurd hcp (List.not_mem_nil cp)

theorem scoreLoop_ok_cmpFree (r : Resume)
    (hr : ∀ j, (slotLevel r j).usesCmp = false) :
    ∀ (idxs : List Nat) (acc : Ct) (c : Ct), acc.usesCmp = false →
      scoreLoop r idxs acc = Except.ok c → c.usesCmp = false := by
  intro idxs
  induction idxs with
  | nil =>
    intro acc c hacc hok
    cases hok
    exact hacc
  | cons hd tl ih =>
    intro acc c hacc hok
    rw [scoreLoop] at hok
    split_ifs at hok
    · refine ih _ _ ?_ hok
      show ((Ct.add acc (slotLevel r hd)).usesCmp) = false
      simp [Ct.usesCmp, hacc, hr hd]
    · exact ih _ _ hacc hok

theorem storeStep_cmpFree (sender i : Nat) (ct : Ct) (nm : String)
    (s : CState) (hct : ct.usesCmp = false) (h : CmpFree s) :
    CmpFree (storeStep sender i ct nm s) := by
  constructor
  · intro u j
    rw [storeStep_resumes]
    split_ifs with hc
    · rw [setSlot_slotLevel _ _ _ _ _ hc.2]
      split_ifs
      · exact hct
      · exact h.1 sender j
    · exact h.1 u j
  · intro cp hcp
    rw [storeStep_acl] at hcp
    split_ifs at hcp
    · rcases List.mem_append.mp hcp with hL | hR
      · exact h.2 cp hL
      · simp only [List.mem_cons, List.mem_singleton] at hR
        rcases hR with rfl | rfl | hF
        · exact hct
        · exact hct
        · exact absurd hF (List.not_mem_nil cp)
    · exact h.2 cp hcp

theorem storeSkillsFrom_cmpFree (sender p : Nat) :
    ∀ (pairs : List (String × Nat)) (i : Nat) (s : CState), CmpFree s →
      CmpFree (storeSkillsFrom sender p i pairs s) := by
  intro pairs
  induction pairs with
  | nil => intro i s h; exact h
  | cons hd tl ih =>
    intro i s h
    obtain ⟨nm, hh⟩ := hd
    rw [storeSkillsFrom]
    exact ih _ _ (storeStep_cmpFree _ _ _ _ _ rfl h)

theorem submitState_cmpFree (s : CState) (sender t : Nat) (n e w : String)
    (cnt : Nat) (h : CmpFree s) :
    CmpFree (submitState s sender t n e w cnt) := by
  constructor
  · intro u j
    show (slotLevel ((submitState s sender t n e w cnt).resumes u) j).usesCmp
      = false
    by_cases hu : u = sender
    · subst hu
      have hsl : slotLevel ((submitState s u t n e w cnt).resumes u) j =
          slotLevel (s.resumes u) j := by
        simp only [submitState, Function.update_same]
        unfold slotLevel
        split_ifs <;> rfl
      rw [hsl]
      exact h.1 u j
    · have : (submitState s sender t n e w cnt).resumes u = s.resumes u := by
        simp [submitState, Function.update_noteq hu]
      rw [this]
      exact h.1 u j
  · intro cp hcp
    exact h.2 cp hcp

theorem updateState_cmpFree (s : CState) (sender t : Nat) (n e w : String)
    (cnt : Nat) (h : CmpFree s) :
    CmpFree (updateState s sender t n e w cnt) := by
  constructor
  · intro u j
    show (slotLevel ((updateState s sender t n e w cnt).resumes u) j).usesCmp
      = false
    by_cases hu : u = sender
    · subst hu
      have hsl : (slotLevel ((updateState s u t n e w cnt).resumes u) j
          ).usesCmp = false := by
        simp only [updateState, Function.update_same]
        unfold slotLevel
        split_ifs <;> rfl
      exact hsl
    · have : (updateState s sender t n e w cnt).resumes u = s.resumes u := by
        simp [updateState, Function.update_noteq hu]
      rw [this]
      exact h.1 u j
  · intro cp hcp
    exact h.2 cp hcp

theorem submitResume_ok_cmpFree (s s' : CState) (sender t : Nat)
    (n e w : String) (sn : List String) (sl : List Nat) (p : Nat)
    (h : CmpFree s)
    (hok : submitResume s sender t n e w sn sl p = Except.ok s') :
    CmpFree s' := by
  unfold submitResume at hok
  split_ifs at hok <;> try exact (Except.noConfusion hok)
  cases hok
  exact storeSkillsFrom_cmpFree _ _ _ _ _
    (submitState_cmpFree _ _ _ _ _ _ _ h)

theorem updateResume_ok_cmpFree (s s' : CState) (sender t : Nat)
    (n e w : String) (sn : List String) (sl : List Nat) (p : Nat)
    (h : CmpFree s)
    (hok : updateResume s sender t n e w sn sl p = Except.ok s') :
    CmpFree s' := by
  unfold updateResume at hok
  split_ifs at hok <;> try exact (Except.noConfusion hok)
  cases hok
  exact storeSkillsFrom_cmpFree _ _ _ _ _
    (updateState_cmpFree _ _ _ _ _ _ _ h)

theorem grant_cmpFree (s : CState) (c : Ct) (p : Principal)
    (hc : c.usesCmp = false) (h : CmpFree s) : CmpFree (grant s c p) := by
  constructor
  · intro u j
    exact h.1 u j
  · intro cp hcp
    simp only [grant, List.mem_append, List.mem_singleton] at hcp
    rcases hcp with hL | rfl
    · exact h.2 cp hL
    · exact hc

theorem evaluateSkillMatch_ok_cmpFree (s s' : CState)
    (sender candidate i : Nat) (c : Ct) (h : CmpFree s)
    (hok : evaluateSkillMatch s sender candidate i = Except.ok (c, s')) :
    CmpFree s' ∧ c.usesCmp = false := by
  unfold evaluateSkillMatch at hok
  split_ifs at hok <;> try exact (Except.noConfusion hok)
  cases hok
  have hc : (slotLevel (s.resumes candidate) i).usesCmp = false :=
    h.1 candidate i
  exact ⟨grant_cmpFree _ _ _ hc (grant_cmpFree _ _ _ hc h), hc⟩

theorem calculateSkillScore_ok_cmpFree (s s' : CState)
    (sender candidate : Nat) (idxs : List Nat) (c : Ct) (h : CmpFree s)
    (hok : calculateSkillScore s sender candidate idxs =
      Except.ok (c, s')) :
    CmpFree s' ∧ c.usesCmp = false := by
  unfold calculateSkillScore at hok
  split_ifs at hok <;> try exact (Except.noConfusion hok)
  revert hok
  cases hsl : scoreLoop (s.resumes candidate) idxs (Ct.const 0) with
  | error e => intro hok; exact (Except.noConfusion hok)
  | ok total =>
    intro hok
    cases hok
    have hc : c.usesCmp = false :=
      scoreLoop_ok_cmpFree (s.resumes candidate) (h.1 candidate) idxs
        (Ct.const 0) c rfl hsl
    exact ⟨grant_cmpFree _ _ _ hc (grant_cmpFree _ _ _ hc h), hc⟩

theorem execOp_cmpFree (s : CState) (op : Op) (h : CmpFree s) :
    CmpFree (execOp s op) := by
  cases op with
  | submit sender t n e w sn sl p =>
    simp only [execOp]
    cases hs : submitResume s sender t n e w sn sl p with
    | error _ => exact h
    | ok s' => exact submitResume_ok_cmpFree _ _ _ _ _ _ _ _ _ _ h hs
  | update sender t n e w sn sl p =>
    simp only [execOp]
    cases hs : updateResume s sender t n e w sn sl p with
    | error _ => exact h
    | ok s' => exact updateResume_ok_cmpFree _ _ _ _ _ _ _ _ _ _ h hs
  | evaluate sender candidate i =>
    simp only [execOp]
    cases hs : evaluateSkillMatch s sender candidate i with
    | error _ => exact h
    | ok cs =>
      obtain ⟨c, s'⟩ := cs
      exact (evaluateSkillMatch_ok_cmpFree _ _ _ _ _ _ h hs).1
  | calculate sender candidate idxs =>
    simp only [execOp]
    cases hs : calculateSkillScore s sender candidate idxs with
    | error _ => exact h
    | ok cs =>
      obtain ⟨c, s'⟩ := cs
      exact (calculateSkillScore_ok_cmpFree _ _ _ _ _ _ h hs).1
  | authorize sender hr =>
    simp only [execOp]
    cases hs : authorizeHR s sender hr with
    | error _ => exact h
    | ok s' =>
      obtain ⟨hres, _, hacl, _⟩ := authorizeHR_ok_state _ _ _ _ hs
      constructor
      · intro u j
        show (slotLevel (s'.resumes u) j).usesCmp = false
        rw [hres]
        exact h.1 u j
      · intro cp hcp
        have hcp' : cp ∈ s'.acl := hcp
        rw [hacl] at hcp'
        exact h.2 cp hcp' 
  | revoke sender hr =>
    simp only [execOp]
    cases hs : revokeHR s sender hr with
    | error _ => exact h
    | ok s' =>
      obtain ⟨hres, _, hacl, _⟩ := revokeHR_ok_state _ _ _ _ hs
      constructor
      · intro u j
        show (slotLevel (s'.resumes u) j).usesCmp = false
        rw [hres]
        exact h.1 u j
      · intro cp hcp
        have hcp' : cp ∈ s'.acl := hcp
        rw [hacl] at hcp'
        exact h.2 cp hcp' 

theorem run_cmpFree : ∀ (ops : List Op) (s : CState), CmpFree s →
    CmpFree (run s ops) := by
  intro ops
  induction ops with
  | nil => intro s h; exact h
  | cons op rest ih =>
    intro s h
    exact ih (execOp s op) (execOp_cmpFree s op h)

/-! ## Which functions can raise "Not authorized HR" -/

theorem submitResume_no_auth_error (s : CState) (sender t : Nat)
    (n e w : String) (sn : List String) (sl : List Nat) (p : Nat)
    (err : String)
    (herr : submitResume s sender t n e w sn sl p = Except.error err) :
    err ≠ "Not authorized HR" := by
  unfold submitResume at herr
  split_ifs at herr <;> first
  | exact (Except.noConfusion herr)
  | (cases herr; simp)

theorem updateResume_no_auth_error (s : CState) (sender t : Nat)
    (n e w : String) (sn : List String) (sl : List Nat) (p : Nat)
    (err : String)
    (herr : updateResume s sender t n e w sn sl p = Except.error err) :
    err ≠ "Not authorized HR" := by
  unfold updateResume at herr
  split_ifs at herr <;> first
  | exact (Except.noConfusion herr)
  | (cases herr; simp)

theorem authorizeHR_no_auth_error (s : CState) (sender hr : Nat)
    (err : String) (herr : authorizeHR s sender hr = Except.error err) :
    err ≠ "Not authorized HR" := by
  unfold authorizeHR at herr
  split_ifs at herr <;> first
  | exact (Except.noConfusion herr)
  | (cases herr; simp)

theorem revokeHR_no_auth_error (s : CState) (sender hr : Nat)
    (err : String) (herr : revokeHR s sender hr = Except.error err) :
    err ≠ "Not authorized HR" := by
  unfold revokeHR at herr
  split_ifs at herr <;> first
  | exact (Except.noConfusion herr)
  | (cases herr; simp)

theorem getResumeInfo_no_auth_error (s : CState) (u : Nat) (err : String)
    (herr : getResumeInfo s u = Except.error err) :
    err ≠ "Not authorized HR" := by
  unfold getResumeInfo at herr
  split_ifs at herr <;> first
  | exact (Except.noConfusion herr)
  | (cases herr; simp)

theorem getSkillLevels_no_auth_error (s : CState) (u : Nat) (err : String)
    (herr : getSkillLevels s u = Except.error err) :
    err ≠ "Not authorized HR" := by
  unfold getSkillLevels at herr
  split_ifs at herr <;> first
  | exact (Except.noConfusion herr)
  | (cases herr; simp)

/-! ## The claims -/

/-- C1: for every candidate with an existing resume and every index list
whose entries are all below the candidate's `skillCount` (which is at most 5
in every reachable state), `calculateSkillScore` called by an authorized HR
returns the left fold of `FHE.add` starting from an encryption of 0 over the
stored encrypted skill levels at those indices, in the order given — the
result is a pure addition tree over the stored ciphertexts, so no individual
level is decrypted. -/
theorem C1_calculateSkillScore_homomorphic_sum (s : CState)
    (sender candidate : Nat) (idxs : List Nat)
    (hhr : s.hrAddresses sender = true)
    (hex : (s.resumes candidate).exists_ = true)
    (h5 : (s.resumes candidate).skillCount ≤ 5)
    (hall : ∀ i ∈ idxs, i < (s.resumes candidate).skillCount) :
    calculateSkillScore s sender candidate idxs =
      Except.ok
        (idxs.foldl (fun acc i => Ct.add acc (slotLevel (s.resumes candidate) i))
          (Ct.const 0),
        grant
          (grant s
            (idxs.foldl
              (fun acc i => Ct.add acc (slotLevel (s.resumes candidate) i))
              (Ct.const 0))
            .contract)
          (idxs.foldl
            (fun acc i => Ct.add acc (slotLevel (s.resumes candidate) i))
            (Ct.const 0))
          (.user sender)) :=
  calculateSkillScore_eq s sender candidate idxs hhr hex h5 hall

/-- C1 witness: in the demo state, HR 3 scores candidate 1's skills
`[0, 1, 0]` and receives `((0 + s0) + s1) + s0` as an addition tree over the
two stored ciphertexts. -/
theorem C1_witness :
    demoState.hrAddresses 3 = true ∧
      (demoState.resumes 1).exists_ = true ∧
      (demoState.resumes 1).skillCount ≤ 5 ∧
      calculateSkillScore demoState 3 1 [0, 1, 0] =
        Except.ok
          (demoScore,
          grant (grant demoState demoScore .contract) demoScore
            (.user 3)) :=
  ⟨rfl, rfl, by decide,
    C1_calculateSkillScore_homomorphic_sum demoState 3 1 [0, 1, 0] rfl rfl
      (by decide) (by decide)⟩

/-- C2: a caller not marked in `hrAddresses` gets "Not authorized HR" from
both `evaluateSkillMatch` and `calculateSkillScore` and the state is rolled
back unchanged; a caller marked true never fails for that reason; and no
other entry point of the contract can ever raise "Not authorized HR". -/
theorem C2_onlyHR_gates_evaluation (s : CState)
    (sender candidate skillIndex : Nat) (idxs : List Nat) (t : Nat)
    (n e w : String) (sn : List String) (sl : List Nat) (p hr u : Nat) :
    (s.hrAddresses sender = false →
      evaluateSkillMatch s sender candidate skillIndex =
          Except.error "Not authorized HR" ∧
        calculateSkillScore s sender candidate idxs =
          Except.error "Not authorized HR" ∧
        execOp s (.evaluate sender candidate skillIndex) = s ∧
        execOp s (.calculate sender candidate idxs) = s) ∧
      (s.hrAddresses sender = true →
        (∀ err, evaluateSkillMatch s sender candidate skillIndex =
          Except.error err → err ≠ "Not authorized HR") ∧
        (∀ err, calculateSkillScore s sender candidate idxs =
          Except.error err → err ≠ "Not authorized HR")) ∧
      (∀ err, submitResume s sender t n e w sn sl p = Except.error err →
        err ≠ "Not authorized HR") ∧
      (∀ err, updateResume s sender t n e w sn sl p = Except.error err →
        err ≠ "Not authorized HR") ∧
      (∀ err, authorizeHR s sender hr = Except.error err →
        err ≠ "Not authorized HR") ∧
      (∀ err, revokeHR s sender hr = Except.error err →
        err ≠ "Not authorized HR") ∧
      (∀ err, getResumeInfo s u = Except.error err →
        err ≠ "Not authorized HR") ∧
      (∀ err, getSkillLevels s u = Except.error err →
        err ≠ "Not authorized HR") := by
  refine ⟨?_, ?_, ?_, ?_, ?_, ?_, ?_, ?_⟩
  · intro hf
    refine ⟨evaluateSkillMatch_not_hr s sender candidate skillIndex hf,
      calculateSkillScore_not_hr s sender candidate idxs hf, ?_, ?_⟩
    · simp only [execOp]
      rw [evaluateSkillMatch_not_hr s sender candidate skillIndex hf]
      rfl
    · simp only [execOp]
      rw [calculateSkillScore_not_hr s sender candidate idxs hf]
      rfl
  · intro ht
    exact ⟨fun err herr =>
        evaluateSkillMatch_hr_no_auth_error s sender candidate skillIndex
          err ht herr,
      fun err herr =>
        calculateSkillScore_hr_no_auth_error s sender candidate idxs err ht
          herr⟩
  · exact fun err herr =>
      submitResume_no_auth_error s sender t n e w sn sl p err herr
  · exact fun err herr =>
      updateResume_no_auth_error s sender t n e w sn sl p err herr
  · exact fun err herr => authorizeHR_no_auth_error s sender hr err herr
  · exact fun err herr => revokeHR_no_auth_error s sender hr err herr
  · exact fun err herr => getResumeInfo_no_auth_error s u err herr
  · exact fun err herr => getSkillLevels_no_auth_error s u err herr

/-- C3: `submitResume` reverts exactly on a length mismatch, an empty or
too-long skill list, or an empty name; `updateResume` reverts exactly on
those three plus a missing resume; reverted transactions leave the state
unchanged; and the resume struct has exactly 5 fixed skill slots (writing
any slot index at or beyond 5 is a no-op). -/
theorem C3_submission_validation (s : CState) (sender t : Nat)
    (n e w : String) (sn : List String) (sl : List Nat) (p : Nat)
    (r : Resume) (i : Nat) (ct : Ct) (nm : String) :
    ((∃ err, submitResume s sender t n e w sn sl p = Except.error err) ↔
        (sn.length ≠ sl.length ∨ sn.length = 0 ∨ 5 < sn.length ∨
          n = "")) ∧
      ((∃ err, updateResume s sender t n e w sn sl p = Except.error err) ↔
        (sn.length ≠ sl.length ∨ sn.length = 0 ∨ 5 < sn.length ∨
          n = "" ∨ (s.resumes sender).exists_ = false)) ∧
      (∀ err, submitResume s sender t n e w sn sl p = Except.error err →
        execOp s (.submit sender t n e w sn sl p) = s) ∧
      (∀ err, updateResume s sender t n e w sn sl p = Except.error err →
        execOp s (.update sender t n e w sn sl p) = s) ∧
      (5 ≤ i → setSlot r i ct nm = r) := by
  refine ⟨submitResume_error_iff s sender t n e w sn sl p, ?_, ?_, ?_, ?_⟩
  · rw [updateResume_error_iff s sender t n e w sn sl p]
    tauto
  · intro err herr
    simp only [execOp]
    rw [herr]
    rfl
  · intro err herr
    simp only [execOp]
    rw [herr]
    rfl
  · intro hge
    unfold setSlot
    split_ifs <;> first | omega | rfl

/-- C4 (amended): the HR evaluation protocol applies no FHE comparison to
ciphertexts.  In every reachable state, every stored skill ciphertext and
every ciphertext granted in the ACL is comparison-free, and whatever
`evaluateSkillMatch` or `calculateSkillScore` returns is comparison-free;
encrypted addition is the only homomorphic operation applied
(`calculateSkillScore` builds a pure `FHE.add` tree; `evaluateSkillMatch`
returns a stored ciphertext unchanged for off-chain decryption). -/
theorem C4_evaluation_uses_addition_never_comparison (ops : List Op) :
    (∀ u j, (slotLevel ((run initState ops).resumes u) j).usesCmp = false) ∧
      (∀ c p2, (c, p2) ∈ (run initState ops).acl → c.usesCmp = false) ∧
      (∀ sender cand i c s',
        evaluateSkillMatch (run initState ops) sender cand i =
          Except.ok (c, s') → c.usesCmp = false) ∧
      (∀ sender cand idxs c s',
        calculateSkillScore (run initState ops) sender cand idxs =
          Except.ok (c, s') → c.usesCmp = false) ∧
      calculateSkillScore demoState 3 1 [0, 1] =
        Except.ok
          (Ct.add (Ct.add (Ct.const 0) (Ct.ext 7 42)) (Ct.ext 9 42),
          grant
            (grant demoState
              (Ct.add (Ct.add (Ct.const 0) (Ct.ext 7 42)) (Ct.ext 9 42))
              .contract)
            (Ct.add (Ct.add (Ct.const 0) (Ct.ext 7 42)) (Ct.ext 9 42))
            (.user 3)) := by
  have h := run_cmpFree ops initState initState_cmpFree
  refine ⟨h.1, fun c p2 hmem => h.2 (c, p2) hmem, ?_, ?_, rfl⟩
  · intro sender cand i c s' hok
    exact (evaluateSkillMatch_ok_cmpFree _ _ _ _ _ _ h hok).2
  · intro sender cand idxs c s' hok
    exact (calculateSkillScore_ok_cmpFree _ _ _ _ _ _ h hok).2

/-- C4 counterexample to the claim as stated: no contract operation ever
applies an FHE comparison — no ciphertext reachable in any execution
(stored in a slot, granted in the ACL, or returned by the two HR
evaluation functions) contains a comparison node. -/
theorem C4_cex_no_comparison_ever_applied :
    ¬ ∃ c : Ct, c.usesCmp = true ∧
      ∃ ops : List Op,
        (∃ u j, c = slotLevel ((run initState ops).resumes u) j) ∨
        (∃ p2, (c, p2) ∈ (run initState ops).acl) ∨
        (∃ sender cand i s',
          evaluateSkillMatch (run initState ops) sender cand i =
            Except.ok (c, s')) ∨
        (∃ sender cand idxs s',
          calculateSkillScore (run initState ops) sender cand idxs =
            Except.ok (c, s')) := by
  rintro ⟨c, hc, ops, hcase⟩
  have h := run_cmpFree ops initState initState_cmpFree
  rcases hcase with ⟨u, j, rfl⟩ | ⟨p2, hmem⟩ | ⟨sender, cand, i, s', hok⟩ |
    ⟨sender, cand, idxs, s', hok⟩
  · rw [h.1 u j] at hc
    exact Bool.noConfusion hc
  · rw [h.2 (c, p2) hmem] at hc
    exact Bool.noConfusion hc
  · rw [(evaluateSkillMatch_ok_cmpFree _ _ _ _ _ _ h hok).2] at hc
    exact Bool.noConfusion hc
  · rw [(calculateSkillScore_ok_cmpFree _ _ _ _ _ _ h hok).2] at hc
    exact Bool.noConfusion hc

theorem list_getD_lt {α : Type} :
    ∀ (l : List α) (d : α) (j : Nat) (h : j < l.length),
      l.getD j d = l.get ⟨j, h⟩ := by
  intro l
  induction l with
  | nil => intro d j h; exact absurd h (by simp)
  | cons a tl ih =>
    intro d j h
    match j with
    | 0 => rfl
    | k + 1 => exact ih d k (by simpa using h)

theorem list_getD_map {α β : Type} (f : α → β) :
    ∀ (l : List α) (d : β) (j : Nat) (h : j < l.length),
      (l.map f).getD j d = f (l.get ⟨j, h⟩) := by
  intro l
  induction l with
  | nil => intro d j h; exact absurd h (by simp)
  | cons a tl ih =>
    intro d j h
    match j with
    | 0 => rfl
    | k + 1 => exact ih d k (by simpa using h)

/-- C5: for a user without a resume both views revert with "Resume does not
exist"; after a successful `submitResume` (resp. `updateResume`), and any
further transactions none of which is a submit/update by that user,
`getResumeInfo` returns exactly the submitted plaintext fields — the
skill-names list is exactly the submitted one (length `skillCount`, `i`-th
entry from slot `i+1`) — with both timestamps set to the submission time
(resp. `createdAt` kept), and `getSkillLevels` returns the imported
ciphertexts of the submitted levels in slot order. -/
theorem C5_views_return_latest_stored (s : CState) (sender t : Nat)
    (n e w : String) (sn : List String) (sl : List Nat) (p : Nat)
    (ops : List Op) (u : Nat) :
    ((s.resumes u).exists_ = false →
      getResumeInfo s u = Except.error "Resume does not exist" ∧
        getSkillLevels s u = Except.error "Resume does not exist") ∧
      (∀ s', submitResume s sender t n e w sn sl p = Except.ok s' →
        (∀ op ∈ ops, writesResume sender op = false) →
        getResumeInfo (run s' ops) sender =
            Except.ok
              { name := n, education := e, workExperience := w
                skillNames := sn, createdAt := t, updatedAt := t } ∧
          getSkillLevels (run s' ops) sender =
            Except.ok (sl.map (fun hh => Ct.ext hh p))) ∧
      (∀ s', updateResume s sender t n e w sn sl p = Except.ok s' →
        (∀ op ∈ ops, writesResume sender op = false) →
        getResumeInfo (run s' ops) sender =
            Except.ok
              { name := n, education := e, workExperience := w
                skillNames := sn
                createdAt := (s.resumes sender).createdAt
                updatedAt := t } ∧
          getSkillLevels (run s' ops) sender =
            Except.ok (sl.map (fun hh => Ct.ext hh p))) := by
  refine ⟨?_, ?_, ?_⟩
  · intro hne
    exact ⟨getResumeInfo_not_exists s u hne, getSkillLevels_not_exists s u hne⟩
  · intro s' hok hno
    have hrun : (run s' ops).resumes sender = s'.resumes sender :=
      run_resumes_ne sender ops s' hno
    obtain ⟨hn, he, hw, hcnt, hcr, hup, hex⟩ :=
      submitResume_ok_meta _ _ _ _ _ _ _ _ _ _ hok
    obtain ⟨hlen, hpos, hle5, hne⟩ :=
      submitResume_ok_conditions _ _ _ _ _ _ _ _ _ _ hok
    have h5' : (s'.resumes sender).skillCount ≤ 5 := by
      rw [hcnt]
      exact hle5
    have hnames : buildSkillNames (s'.resumes sender) = sn := by
      refine list_ext_getD "" _ _ ?_ ?_
      · rw [buildSkillNames_length, hcnt]
      · intro j hj
        rw [buildSkillNames_length, hcnt] at hj
        rw [buildSkillNames_getD _ h5' j (by rw [hcnt]; exact hj),
          (submitResume_ok_slots _ _ _ _ _ _ _ _ _ _ hok j hj
            (by omega)).2,
          list_getD_lt sn "" j hj]
    have hlevels : buildSkillLevels (s'.resumes sender) =
        sl.map (fun hh => Ct.ext hh p) := by
      refine list_ext_getD Ct.uninit _ _ ?_ ?_
      · rw [buildSkillLevels_length, hcnt]
        simp [hlen]
      · intro j hj
        rw [buildSkillLevels_length, hcnt] at hj
        have hjl : j < sl.length := by omega
        rw [buildSkillLevels_getD _ h5' j (by rw [hcnt]; exact hj),
          (submitResume_ok_slots _ _ _ _ _ _ _ _ _ _ hok j hj hjl).1,
          list_getD_map _ sl Ct.uninit j hjl]
    constructor
    · rw [getResumeInfo_exists _ _ (by rw [hrun]; exact hex), hrun, hn, he,
        hw, hcr, hup, hnames]
    · rw [getSkillLevels_exists _ _ (by rw [hrun]; exact hex), hrun, hlevels]
  · intro s' hok hno
    have hrun : (run s' ops).resumes sender = s'.resumes sender :=
      run_resumes_ne sender ops s' hno
    obtain ⟨hn, he, hw, hcnt, hcr, hup, hex⟩ :=
      updateResume_ok_meta _ _ _ _ _ _ _ _ _ _ hok
    obtain ⟨hex0, hlen, hpos, hle5, hne⟩ :=
      updateResume_ok_conditions _ _ _ _ _ _ _ _ _ _ hok
    have h5' : (s'.resumes sender).skillCount ≤ 5 := by
      rw [hcnt]
      exact hle5
    have hnames : buildSkillNames (s'.resumes sender) = sn := by
      refine list_ext_getD "" _ _ ?_ ?_
      · rw [buildSkillNames_length, hcnt]
      · intro j hj
        rw [buildSkillNames_length, hcnt] at hj
        rw [buildSkillNames_getD _ h5' j (by rw [hcnt]; exact hj),
          (updateResume_ok_slots _ _ _ _ _ _ _ _ _ _ hok j hj
            (by omega)).2,
          list_getD_lt sn "" j hj]
    have hlevels : buildSkillLevels (s'.resumes sender) =
        sl.map (fun hh => Ct.ext hh p) := by
      refine list_ext_getD Ct.uninit _ _ ?_ ?_
      · rw [buildSkillLevels_length, hcnt]
        simp [hlen]
      · intro j hj
        rw [buildSkillLevels_length, hcnt] at hj
        have hjl : j < sl.length := by omega
        rw [buildSkillLevels_getD _ h5' j (by rw [hcnt]; exact hj),
          (updateResume_ok_slots _ _ _ _ _ _ _ _ _ _ hok j hj hjl).1,
          list_getD_map _ sl Ct.uninit j hjl]
    have hexT : ((run s' ops).resumes sender).exists_ = true := by
      rw [hrun, hex]
      exact hex0
    constructor
    · rw [getResumeInfo_exists _ _ hexT, hrun, hn, he, hw, hcr, hup, hnames]
    · rw [getSkillLevels_exists _ _ hexT, hrun, hlevels]

theorem grant_mem_last (s : CState) (c : Ct) (p2 : Principal) :
    (c, p2) ∈ (grant s c p2).acl := by
  simp [grant]

theorem grant_mem_mono (s : CState) (c c2 : Ct) (p2 q : Principal)
    (h : (c, p2) ∈ s.acl) : (c, p2) ∈ (grant s c2 q).acl := by
  simp [grant]
  exact Or.inl h

/-- C6: after a successful `submitResume`/`updateResume` every stored skill
ciphertext (each of the first `skillCount` slots) carries decryption grants
for the contract and for the submitting user; after a successful
`evaluateSkillMatch`/`calculateSkillScore` the returned ciphertext carries
grants for the contract and for the calling HR. -/
theorem C6_decryption_grants (s : CState) (sender t cand i : Nat)
    (n e w : String) (sn : List String) (sl : List Nat) (p : Nat)
    (idxs : List Nat) :
    (∀ s', submitResume s sender t n e w sn sl p = Except.ok s' →
      ∀ j, j < (s'.resumes sender).skillCount →
        (slotLevel (s'.resumes sender) j, Principal.contract) ∈ s'.acl ∧
          (slotLevel (s'.resumes sender) j, Principal.user sender) ∈
            s'.acl) ∧
      (∀ s', updateResume s sender t n e w sn sl p = Except.ok s' →
        ∀ j, j < (s'.resumes sender).skillCount →
          (slotLevel (s'.resumes sender) j, Principal.contract) ∈ s'.acl ∧
            (slotLevel (s'.resumes sender) j, Principal.user sender) ∈
              s'.acl) ∧
      (∀ c s', evaluateSkillMatch s sender cand i = Except.ok (c, s') →
        (c, Principal.contract) ∈ s'.acl ∧
          (c, Principal.user sender) ∈ s'.acl) ∧
      (∀ c s', calculateSkillScore s sender cand idxs =
        Except.ok (c, s') →
        (c, Principal.contract) ∈ s'.acl ∧
          (c, Principal.user sender) ∈ s'.acl) := by
  refine ⟨?_, ?_, ?_, ?_⟩
  · intro s' hok j hj
    obtain ⟨_, _, _, hcnt, _, _, _⟩ :=
      submitResume_ok_meta _ _ _ _ _ _ _ _ _ _ hok
    obtain ⟨hlen, _, _, _⟩ :=
      submitResume_ok_conditions _ _ _ _ _ _ _ _ _ _ hok
    rw [hcnt] at hj
    have hjl : j < sl.length := by omega
    rw [(submitResume_ok_slots _ _ _ _ _ _ _ _ _ _ hok j hj hjl).1]
    exact submitResume_ok_grants _ _ _ _ _ _ _ _ _ _ hok j hjl hj
  · intro s' hok j hj
    obtain ⟨_, _, _, hcnt, _, _, _⟩ :=
      updateResume_ok_meta _ _ _ _ _ _ _ _ _ _ hok
    obtain ⟨_, hlen, _, _, _⟩ :=
      updateResume_ok_conditions _ _ _ _ _ _ _ _ _ _ hok
    rw [hcnt] at hj
    have hjl : j < sl.length := by omega
    rw [(updateResume_ok_slots _ _ _ _ _ _ _ _ _ _ hok j hj hjl).1]
    exact updateResume_ok_grants _ _ _ _ _ _ _ _ _ _ hok j hjl hj
  · intro c s' hok
    unfold evaluateSkillMatch at hok
    split_ifs at hok <;> try exact (Except.noConfusion hok)
    cases hok
    exact ⟨grant_mem_mono _ _ _ _ _ (grant_mem_last _ _ _),
      grant_mem_last _ _ _⟩
  · intro c s' hok
    unfold calculateSkillScore at hok
    split_ifs at hok <;> try exact (Except.noConfusion hok)
    revert hok
    cases hsl : scoreLoop (s.resumes cand) idxs (Ct.const 0) with
    | error e => intro hok; exact (Except.noConfusion hok)
    | ok total =>
      intro hok
      cases hok
      exact ⟨grant_mem_mono _ _ _ _ _ (grant_mem_last _ _ _),
        grant_mem_last _ _ _⟩

/-- C7: a successful `updateResume` changes only the sender's resume record,
keeps `createdAt` and `exists` and sets `updatedAt` to the block timestamp,
and leaves the total-resumes counter, the `hrAddresses` mapping and every
other address's resume unchanged. -/
theorem C7_update_frame (s : CState) (sender t : Nat) (n e w : String)
    (sn : List String) (sl : List Nat) (p : Nat) (s' : CState)
    (hok : updateResume s sender t n e w sn sl p = Except.ok s') :
    (∀ a, a ≠ sender → s'.resumes a = s.resumes a) ∧
      (s'.resumes sender).createdAt = (s.resumes sender).createdAt ∧
      (s'.resumes sender).exists_ = (s.resumes sender).exists_ ∧
      (s'.resumes sender).updatedAt = t ∧
      s'.totalResumes = s.totalResumes ∧
      (∀ a, s'.hrAddresses a = s.hrAddresses a) := by
  obtain ⟨_, _, _, _, hcr, hup, hex⟩ :=
    updateResume_ok_meta _ _ _ _ _ _ _ _ _ _ hok
  obtain ⟨hhr, htot⟩ := updateResume_hr_total _ _ _ _ _ _ _ _ _ _ hok
  exact ⟨fun a ha => updateResume_resumes_ne _ _ _ _ _ _ _ _ _ _ _ hok ha,
    hcr, hex, hup, htot, fun a => by rw [hhr]⟩

/-- C7 witness: address 1 updates its resume in the demo state at time 200;
address 2's record, the counter, HR flags, and `createdAt`/`exists` survive,
while `updatedAt` becomes 200. -/
theorem C7_witness :
    demoUpdatedState.resumes 2 = demoState.resumes 2 ∧
      (demoUpdatedState.resumes 1).createdAt =
        (demoState.resumes 1).createdAt ∧
      (demoUpdatedState.resumes 1).exists_ =
        (demoState.resumes 1).exists_ ∧
      (demoUpdatedState.resumes 1).updatedAt = 200 ∧
      demoUpdatedState.totalResumes = demoState.totalResumes ∧
      demoUpdatedState.hrAddresses 3 = demoState.hrAddresses 3 := by
  have h := C7_update_frame demoState 1 200 "alicia" "msc" "dev2" ["rust"]
    [5] 43 demoUpdatedState rfl
  exact ⟨h.1 2 (by decide), h.2.1, h.2.2.1, h.2.2.2.1, h.2.2.2.2.1,
    h.2.2.2.2.2 3⟩

/-- C8: every successful `submitResume` — including a repeat submission by
an address that already has a resume — increments the counter by exactly
one; along any trace from deployment `getStats` equals the number of
successful submits; and after two submissions by the same address the
counter is 2 while only that one address has a resume. -/
theorem C8_total_counts_submissions (s : CState) (sender t : Nat)
    (n e w : String) (sn : List String) (sl : List Nat) (p : Nat)
    (s' : CState) (ops : List Op) :
    (submitResume s sender t n e w sn sl p = Except.ok s' →
      s'.totalResumes = s.totalResumes + 1) ∧
      getStats (run initState ops) = countSuccessfulSubmits initState ops ∧
      getStats (run initState [demoSubmit, demoSubmit]) = 2 ∧
      hasResume (run initState [demoSubmit, demoSubmit]) 1 = true ∧
      (∀ a, a ≠ 1 →
        hasResume (run initState [demoSubmit, demoSubmit]) a = false) := by
  refine ⟨?_, ?_, rfl, rfl, ?_⟩
  · intro hok
    exact (submitResume_hr_total _ _ _ _ _ _ _ _ _ _ hok).2
  · show (run initState ops).totalResumes = countSuccessfulSubmits initState ops
    rw [run_total]
    show 0 + _ = _
    omega
  · intro a ha
    show ((run initState [demoSubmit, demoSubmit]).resumes a).exists_ = false
    rw [run_resumes_ne a [demoSubmit, demoSubmit] initState ?_]
    · rfl
    · intro op hop
      simp only [List.mem_cons, List.mem_singleton] at hop
      rcases hop with rfl | rfl | hF
      · simp [demoSubmit, writesResume]
        omega
      · simp [demoSubmit, writesResume]
        omega
      · exact absurd hF (List.not_mem_nil op)

/-- C9: HR management is open to every sender: `authorizeHR hr` succeeds
precisely when `hr` is nonzero and not yet authorized (setting its flag),
`revokeHR hr` precisely when it is authorized (clearing it), both with
results independent of who calls them, and an authorize immediately
followed by a revoke restores the `hrAddresses` mapping. -/
theorem C9_hr_management_is_open (s : CState) (sender sender2 hr : Nat) :
    ((∃ s', authorizeHR s sender hr = Except.ok s') ↔
        (hr ≠ 0 ∧ s.hrAddresses hr = false)) ∧
      (∀ s', authorizeHR s sender hr = Except.ok s' →
        ∀ a, s'.hrAddresses a = Function.update s.hrAddresses hr true a) ∧
      ((∃ s', revokeHR s sender hr = Except.ok s') ↔
        s.hrAddresses hr = true) ∧
      (∀ s', revokeHR s sender hr = Except.ok s' →
        ∀ a, s'.hrAddresses a = Function.update s.hrAddresses hr false a) ∧
      authorizeHR s sender2 hr = authorizeHR s sender hr ∧
      revokeHR s sender2 hr = revokeHR s sender hr ∧
      (∀ s1 s2, authorizeHR s sender hr = Except.ok s1 →
        revokeHR s1 sender hr = Except.ok s2 →
        ∀ a, s2.hrAddresses a = s.hrAddresses a) := by
  refine ⟨?_, ?_, ?_, ?_, rfl, rfl, ?_⟩
  · constructor
    · intro ⟨s', hok⟩
      unfold authorizeHR at hok
      split_ifs at hok with h1 h2 <;> try exact (Except.noConfusion hok)
      exact ⟨h1, by simpa using h2⟩
    · intro ⟨h1, h2⟩
      unfold authorizeHR
      rw [if_neg h1, h2]
      exact ⟨_, rfl⟩
  · intro s' hok a
    rw [(authorizeHR_ok_state _ _ _ _ hok).2.2.2]
  · constructor
    · intro ⟨s', hok⟩
      unfold revokeHR at hok
      split_ifs at hok with h1 <;> try exact (Except.noConfusion hok)
      exact h1
    · intro h1
      unfold revokeHR
      rw [h1]
      exact ⟨_, rfl⟩
  · intro s' hok a
    rw [(revokeHR_ok_state _ _ _ _ hok).2.2.2]
  · intro s1 s2 hok1 hok2 a
    have h1 := (authorizeHR_ok_state _ _ _ _ hok1).2.2.2
    have h2 := (revokeHR_ok_state _ _ _ _ hok2).2.2.2
    have hfalse : s.hrAddresses hr = false := by
      unfold authorizeHR at hok1
      split_ifs at hok1 with hz hh <;> try exact (Except.noConfusion hok1)
      simpa using hh
    rw [h2, h1]
    by_cases ha : a = hr
    · subst ha
      rw [Function.update_same, hfalse]
    · rw [Function.update_noteq ha, Function.update_noteq ha]

/-- C10: the `exists` flag is monotone — once an address has a resume it
keeps it across every sequence of contract operations; no operation deletes
a resume. -/
theorem C10_hasResume_monotone (s : CState) (u : Nat) (ops : List Op)
    (h : (s.resumes u).exists_ = true) :
    ((run s ops).resumes u).exists_ = true :=
  run_exists_mono u ops s h

/-- C10 witness: address 1's resume survives an update, an HR revocation
and an evaluation attempt. -/
theorem C10_witness :
    (demoState.resumes 1).exists_ = true ∧
      ((run demoState
          [demoUpdate, Op.revoke 9 3, Op.evaluate 3 1 0]).resumes 1
        ).exists_ = true :=
  ⟨rfl, C10_hasResume_monotone demoState 1
    [demoUpdate, Op.revoke 9 3, Op.evaluate 3 1 0] rfl⟩

/-- In every reachable state every stored `skillCount` is at most 5 (the
validation caps submissions at 5 skills), which justifies the
`skillCount ≤ 5` hypothesis of the C1 theorem. -/
theorem execOp_skillCount_le (s : CState) (op : Op)
    (h : ∀ u, (s.resumes u).skillCount ≤ 5) :
    ∀ u, ((execOp s op).resumes u).skillCount ≤ 5 := by
  intro u
  cases op with
  | submit sender t n e w sn sl p =>
    simp only [execOp]
    cases hs : submitResume s sender t n e w sn sl p with
    | error _ => exact h u
    | ok s' =>
      show (s'.resumes u).skillCount ≤ 5
      by_cases hu : u = sender
      · subst hu
        rw [(submitResume_ok_meta _ _ _ _ _ _ _ _ _ _ hs).2.2.2.1]
        exact (submitResume_ok_conditions _ _ _ _ _ _ _ _ _ _ hs).2.2.1
      · rw [submitResume_resumes_ne _ _ _ _ _ _ _ _ _ _ _ hs hu]
        exact h u
  | update sender t n e w sn sl p =>
    simp only [execOp]
    cases hs : updateResume s sender t n e w sn sl p with
    | error _ => exact h u
    | ok s' =>
      show (s'.resumes u).skillCount ≤ 5
      by_cases hu : u = sender
      · subst hu
        rw [(updateResume_ok_meta _ _ _ _ _ _ _ _ _ _ hs).2.2.2.1]
        exact (updateResume_ok_conditions _ _ _ _ _ _ _ _ _ _ hs).2.2.2.1
      · rw [updateResume_resumes_ne _ _ _ _ _ _ _ _ _ _ _ hs hu]
        exact h u
  | evaluate sender candidate i =>
    simp only [execOp]
    cases hs : evaluateSkillMatch s sender candidate i with
    | error _ => exact h u
    | ok cs =>
      obtain ⟨c, s'⟩ := cs
      show (s'.resumes u).skillCount ≤ 5
      rw [(evaluateSkillMatch_ok_state _ _ _ _ _ _ hs).1]
      exact h u
  | calculate sender candidate idxs =>
    simp only [execOp]
    cases hs : calculateSkillScore s sender candidate idxs with
    | error _ => exact h u
    | ok cs =>
      obtain ⟨c, s'⟩ := cs
      show (s'.resumes u).skillCount ≤ 5
      rw [(calculateSkillScore_ok_state _ _ _ _ _ _ hs).1]
      exact h u
  | authorize sender hr =>
    simp only [execOp]
    cases hs : authorizeHR s sender hr with
    | error _ => exact h u
    | ok s' =>
      show (s'.resumes u).skillCount ≤ 5
      rw [(authorizeHR_ok_state _ _ _ _ hs).1]
      exact h u
  | revoke sender hr =>
    simp only [execOp]
    cases hs : revokeHR s sender hr with
    | error _ => exact h u
    | ok s' =>
      show (s'.resumes u).skillCount ≤ 5
      rw [(revokeHR_ok_state _ _ _ _ hs).1]
      exact h u

theorem run_skillCount_le :
    ∀ (ops : List Op) (u : Nat),
      ((run initState ops).resumes u).skillCount ≤ 5 := by
  have hgen : ∀ (ops : List Op) (s : CState),
      (∀ u, (s.resumes u).skillCount ≤ 5) →
      ∀ u, ((run s ops).resumes u).skillCount ≤ 5 := by
    intro ops
    induction ops with
    | nil => intro s h u; exact h u
    | cons op rest ih =>
      intro s h u
      exact ih (execOp s op) (execOp_skillCount_le s op h) u
  intro ops u
  exact hgen ops initState (fun _ => by show (0 : Nat) ≤ 5; omega) u
